import Mathlib

/-!
# ActivityListModel (src/gui/tray/ActivityListModel.cpp)

A shallow embedding of the tray activity list model: the model's member
variables become the fields of a structure, every member function becomes a
function on that structure, and the network side (jobs started, replies
delivered) is kept as an explicit log.

Conventions

* `Activity`'s `operator<` and `operator==` are declared in `ActivityData.h`,
  which is not part of the sources; every function that sorts or searches takes
  them as the parameters `lt` and `eq`.
* `std::sort` is modelled by an insertion sort under `lt`. The C++ standard leaves
  the relative order of equivalent entries open, so the theorems use of the sort
  only that its result is a sorted permutation of its argument.
* A member function that dereferences `_accountState` without a null check
  returns `none` when the pointer is null.
* `_currentItem` is a C++ `int`: an `Int` kept in 32-bit two's complement range by
  `wrapInt` at the one place the code adds to it.
-/

namespace OCC

/-! ## Data model -/

/-- The enumeration `Activity::Type`. The four enumerators are the ones this
file names; `unnamed` stands for any other value of the enumeration. -/
inductive ActivityKind where
  | ActivityType
  | NotificationType
  | SyncResultType
  | SyncFileItemType
  | unnamed (tag : Nat)
  deriving DecidableEq, Repr

/-- The enumeration `SyncFileItem::Status`. The enumerators are the ones this
file names; `unnamed` stands for any other status (success, no status, ...). -/
inductive SyncFileItem.Status where
  | NormalError
  | FatalError
  | DetailError
  | BlacklistedError
  | SoftError
  | Conflict
  | Restoration
  | FileLocked
  | FileIgnored
  | unnamed (tag : Nat)
  deriving DecidableEq, Repr

/-- An `ActivityLink` (declared in `ActivityData.h`); only passed through. -/
structure ActivityLink where
  text : String
  link : String
  deriving DecidableEq, Repr

/-- A `QDateTime`, as milliseconds since the epoch. -/
abbrev QDateTime := Int

/-- The members of `Activity` that this file reads or writes. -/
structure Activity where
  _type : ActivityKind
  _id : Int
  _accName : String
  _subject : String
  _message : String
  _file : String
  _folder : String
  _link : String
  _dateTime : QDateTime
  _status : SyncFileItem.Status
  _objectType : String
  _links : List ActivityLink
  deriving DecidableEq, Repr

/-- A default-constructed `Activity a;`: empty strings, no links. The members
`_type`, `_id` and `_status` are not initialised by C++; every use in this file
overwrites `_type` and `_id`, and nothing below depends on the `_status` chosen
here. -/
def Activity.blank : Activity :=
  { _type := .unnamed 0, _id := 0, _accName := "", _subject := "", _message := "",
    _file := "", _folder := "", _link := "", _dateTime := 0, _status := .unnamed 0,
    _objectType := "", _links := [] }

/-- What the model reads through the `AccountState *`: `isConnected()`,
`account()->displayName()` and `account()->capabilities().hasActivities()`. -/
structure AccountState where
  isConnected : Bool
  displayName : String
  hasActivities : Bool
  deriving DecidableEq, Repr

/-- The query parameters of a `JsonApiJob` on `ocs/v2.php/cloud/activity`. -/
structure JsonApiJob where
  start : Int
  count : Int
  deriving DecidableEq, Repr

/-- One element of the reply's `ocs.data` array, after `toInt`, `toString`,
`QUrl(...)` and `QDateTime::fromString(..., Qt::ISODate)`. -/
structure JsonActivity where
  id : Int
  subject : String
  message : String
  file : String
  link : String
  date : QDateTime
  deriving DecidableEq, Repr

/-- The member variables of `ActivityListModel`, followed by the two effect
logs: the jobs on which `job->start()` was called (oldest first) and the status
codes emitted through `activityJobStatusCode`. `_accountState = none` is the
null pointer. -/
structure ActivityListModel where
  _accountState : Option AccountState
  _activityLists : List Activity
  _syncFileItemLists : List Activity
  _notificationLists : List Activity
  _listOfIgnoredFiles : List Activity
  _notificationIgnoredFiles : Activity
  _notificationErrorsLists : List Activity
  _finalList : List Activity
  _currentlyFetching : Bool
  _doneFetching : Bool
  _currentItem : Int
  startedJobs : List JsonApiJob
  emittedStatusCodes : List Int
  deriving DecidableEq, Repr

/-- Modelled from the spec: the member initialisers are in `ActivityListModel.h`,
which is not part of the sources. A freshly constructed model has paging offset
0, empty lists and neither flag set; the constructor stores `accountState`. -/
def ActivityListModel.fresh (accountState : Option AccountState) : ActivityListModel :=
  { _accountState := accountState, _activityLists := [], _syncFileItemLists := [],
    _notificationLists := [], _listOfIgnoredFiles := [],
    _notificationIgnoredFiles := Activity.blank, _notificationErrorsLists := [],
    _finalList := [], _currentlyFetching := false, _doneFetching := false,
    _currentItem := 0, startedJobs := [], emittedStatusCodes := [] }

/-! ## Machine integers -/

/-- The largest C++ `int`. -/
def INT_MAX : Int := 2147483647

/-- The smallest C++ `int`. -/
def INT_MIN : Int := -2147483648

/-- The result of C++ `int` arithmetic whose exact value is `x`: `x` reduced to
32-bit two's complement, which is what the addition at `_currentItem +=` leaves
when the sum passes `INT_MAX`. -/
def wrapInt (x : Int) : Int :=
  (x + 2147483648) % 4294967296 - 2147483648

/-- The value `x` is representable as a C++ `int`. -/
def InIntRange (x : Int) : Prop :=
  INT_MIN ≤ x ∧ x ≤ INT_MAX

instance (x : Int) : Decidable (InIntRange x) := by
  unfold InIntRange
  infer_instance

/-! ## Sorting and searching -/

/-- The relation "`b` is not ordered strictly before `a`": what a sorted range
guarantees of an element `a` and a later element `b`. -/
def notAfter (lt : Activity → Activity → Bool) (a b : Activity) : Prop :=
  lt b a = false

instance (lt : Activity → Activity → Bool) : DecidableRel (notAfter lt) :=
  fun a b => inferInstanceAs (Decidable (lt b a = false))

/-- `std::sort(l.begin(), l.end())` under `operator<`: one sorted permutation of
`l`. Which of the sorted permutations `std::sort` returns is left open by the C++
standard when `operator<` does not separate two entries. -/
def stdSort (lt : Activity → Activity → Bool) (l : List Activity) : List Activity :=
  l.insertionSort (notAfter lt)

/-- `QList::indexOf(t)`: the index of the first element `x` with `x == t`;
`none` is the C++ result `-1`. -/
def indexOf (eq : Activity → Activity → Bool) : List Activity → Activity → Option Nat
  | [], _ => none
  | x :: xs, t => if eq x t then some 0 else (indexOf eq xs t).map (· + 1)

/-! ## Member functions -/

/-- `ActivityListModel::rowCount`. -/
def rowCount (m : ActivityListModel) : Nat :=
  m._finalList.length

/-- `ActivityListModel::canFetchMore`. -/
def canFetchMore (m : ActivityListModel) : Bool :=
  match m._accountState with
  | some ast =>
    if ast.isConnected then
      if !m._doneFetching && !m._currentlyFetching then true else false
    else false
  | none => false

/-- `ActivityListModel::startFetchJob`. -/
def startFetchJob (m : ActivityListModel) : Option ActivityListModel :=
  match m._accountState with
  | none => none
  | some ast =>
    if !ast.isConnected then some m
    else
      some { m with
        startedJobs := m.startedJobs ++ [{ start := m._currentItem, count := 100 }]
        _currentlyFetching := true }

/-- `ActivityListModel::combineActivityLists`. Each non-empty source list is
sorted in place and appended to the result. -/
def combineActivityLists (lt : Activity → Activity → Bool) (m : ActivityListModel) :
    ActivityListModel :=
  let resultList : List Activity := []
  let errors :=
    if m._notificationErrorsLists.length > 0 then stdSort lt m._notificationErrorsLists
    else m._notificationErrorsLists
  let resultList :=
    if m._notificationErrorsLists.length > 0 then resultList ++ errors else resultList
  let resultList :=
    if m._listOfIgnoredFiles.length > 0 then resultList ++ [m._notificationIgnoredFiles]
    else resultList
  let notifications :=
    if m._notificationLists.length > 0 then stdSort lt m._notificationLists
    else m._notificationLists
  let resultList :=
    if m._notificationLists.length > 0 then resultList ++ notifications else resultList
  let syncFileItems :=
    if m._syncFileItemLists.length > 0 then stdSort lt m._syncFileItemLists
    else m._syncFileItemLists
  let resultList :=
    if m._syncFileItemLists.length > 0 then resultList ++ syncFileItems else resultList
  let activities :=
    if m._activityLists.length > 0 then stdSort lt m._activityLists
    else m._activityLists
  let resultList :=
    if m._activityLists.length > 0 then resultList ++ activities else resultList
  { m with
    _notificationErrorsLists := errors
    _notificationLists := notifications
    _syncFileItemLists := syncFileItems
    _activityLists := activities
    _finalList := resultList }

/-- The `Activity` built from one element of the reply in
`slotActivitiesReceived`. -/
def activityOfJson (ast : AccountState) (json : JsonActivity) : Activity :=
  { Activity.blank with
    _type := .ActivityType
    _accName := ast.displayName
    _id := json.id
    _subject := json.subject
    _message := json.message
    _file := json.file
    _link := json.link
    _dateTime := json.date }

/-- `ActivityListModel::slotActivitiesReceived`; `activities` is the array
`ocs.data` of the reply. -/
def slotActivitiesReceived (lt : Activity → Activity → Bool) (m : ActivityListModel)
    (activities : List JsonActivity) (statusCode : Int) : ActivityListModel :=
  match m._accountState with
  | none => m
  | some ast =>
    let m := if activities.length = 0 then { m with _doneFetching := true } else m
    let m := { m with _currentlyFetching := false }
    let m := { m with _currentItem := wrapInt (m._currentItem + activities.length) }
    let list := activities.map (activityOfJson ast)
    let m := { m with _activityLists := m._activityLists ++ list }
    let m := { m with emittedStatusCodes := m.emittedStatusCodes ++ [statusCode] }
    combineActivityLists lt m

/-- `ActivityListModel::addErrorToActivityList`. -/
def addErrorToActivityList (lt : Activity → Activity → Bool) (m : ActivityListModel)
    (activity : Activity) : ActivityListModel :=
  combineActivityLists lt
    { m with _notificationErrorsLists := activity :: m._notificationErrorsLists }

/-- The subject given to the ignored-files notice (the source string of `tr`). -/
def ignoredFilesSubject : String :=
  "Files from the ignore list as well as symbolic links are not synced. This includes:"

/-- `ActivityListModel::addIgnoredFileToList`. -/
def addIgnoredFileToList (m : ActivityListModel) (newActivity : Activity) :
    ActivityListModel :=
  if m._listOfIgnoredFiles.length = 0 then
    { m with
      _notificationIgnoredFiles := { newActivity with _subject := ignoredFilesSubject }
      _listOfIgnoredFiles := m._listOfIgnoredFiles ++ [newActivity] }
  else
    let duplicate :=
      m._listOfIgnoredFiles.any (fun activity => activity._file == newActivity._file)
    if !duplicate then
      { m with
        _notificationIgnoredFiles :=
          { m._notificationIgnoredFiles with
            _message := m._notificationIgnoredFiles._message ++ (", " ++ newActivity._file) } }
    else m

/-- `ActivityListModel::addNotificationToActivityList`. -/
def addNotificationToActivityList (lt : Activity → Activity → Bool) (m : ActivityListModel)
    (activity : Activity) : ActivityListModel :=
  combineActivityLists lt { m with _notificationLists := activity :: m._notificationLists }

/-- `ActivityListModel::clearNotifications`. -/
def clearNotifications (lt : Activity → Activity → Bool) (m : ActivityListModel) :
    ActivityListModel :=
  combineActivityLists lt { m with _notificationLists := [] }

/-- `ActivityListModel::addSyncFileItemToActivityList`. -/
def addSyncFileItemToActivityList (lt : Activity → Activity → Bool) (m : ActivityListModel)
    (activity : Activity) : ActivityListModel :=
  combineActivityLists lt { m with _syncFileItemLists := activity :: m._syncFileItemLists }

/-- `QList::removeAt(index)` guarded by `if (index != -1)`. -/
def removeAtIfFound (l : List Activity) : Option Nat → List Activity
  | some index => l.eraseIdx index
  | none => l

/-- `ActivityListModel::removeActivityFromActivityList(Activity)`. -/
def removeActivityFromActivityList (lt eq : Activity → Activity → Bool)
    (m : ActivityListModel) (activity : Activity) : ActivityListModel :=
  let found : Option Nat × ActivityListModel :=
    if activity._type = .ActivityType then
      let index := indexOf eq m._activityLists activity
      (index, { m with _activityLists := removeAtIfFound m._activityLists index })
    else if activity._type = .NotificationType then
      let index := indexOf eq m._notificationLists activity
      (index, { m with _notificationLists := removeAtIfFound m._notificationLists index })
    else
      let index := indexOf eq m._notificationErrorsLists activity
      (index,
        { m with
          _notificationErrorsLists := removeAtIfFound m._notificationErrorsLists index })
  if found.1.isSome then combineActivityLists lt found.2 else found.2

/-- `ActivityListModel::removeActivityFromActivityList(int row)`; `none` when
`row` is not a row of the final list (`QList::at` out of range). -/
def removeActivityFromActivityListRow (lt eq : Activity → Activity → Bool)
    (m : ActivityListModel) (row : Nat) : Option ActivityListModel :=
  match m._finalList[row]? with
  | none => none
  | some activity =>
    some (combineActivityLists lt (removeActivityFromActivityList lt eq m activity))

/-- `ActivityListModel::canFetchActivities`. -/
def canFetchActivities (m : ActivityListModel) : Option Bool :=
  match m._accountState with
  | none => none
  | some ast => some (ast.isConnected && ast.hasActivities)

/-- `ActivityListModel::fetchMore`. -/
def fetchMore (lt : Activity → Activity → Bool) (m : ActivityListModel) :
    Option ActivityListModel :=
  match canFetchActivities m with
  | none => none
  | some true => startFetchJob m
  | some false => some (combineActivityLists lt { m with _doneFetching := true })

/-- `ActivityListModel::slotRefreshActivity`. -/
def slotRefreshActivity (lt : Activity → Activity → Bool) (m : ActivityListModel) :
    Option ActivityListModel :=
  let m := { m with _activityLists := [], _doneFetching := false, _currentItem := 0 }
  match canFetchActivities m with
  | none => none
  | some true => startFetchJob m
  | some false => some (combineActivityLists lt { m with _doneFetching := true })

/-- `ActivityListModel::slotRemoveAccount`. -/
def slotRemoveAccount (m : ActivityListModel) : ActivityListModel :=
  { m with
    _finalList := []
    _activityLists := []
    _currentlyFetching := false
    _doneFetching := false
    _currentItem := 0 }


/-! ## The role accessor `data` -/

/-- The roles `data` distinguishes; `unnamed` is any other role number. -/
inductive DataRole where
  | DisplayPathRole
  | PathRole
  | LinkRole
  | MessageRole
  | ActionRole
  | ActionIconRole
  | ActionTextRole
  | ObjectTypeRole
  | ActionsLinksRole
  | AccountRole
  | PointInTimeRole
  | AccountConnectedRole
  | unnamed (tag : Nat)
  deriving DecidableEq, Repr

/-- The `QVariant` values `data` returns. -/
inductive QVariant where
  | invalid
  | string (s : String)
  | url (s : String)
  | bool (b : Bool)
  | list (items : List ActivityLink)
  deriving DecidableEq, Repr

/-- The collaborators `data` calls: the account manager, the folder manager,
the file system and the date formatting helpers. -/
structure Collaborators where
  account : String → Option AccountState
  folderRemotePath : String → Option String
  findFileInLocalFolders : String → AccountState → List String
  fileInfoExists : String → Bool
  fileInfoPath : String → String
  localeShortDate : QDateTime → String
  timeAgoInWords : QDateTime → String

/-- The local path lookup shared by `DisplayPathRole` and `PathRole`: `relPath`
with the folder's remote path prepended when the folder is known. -/
def relPathOf (env : Collaborators) (a : Activity) : String :=
  match env.folderRemotePath a._folder with
  | some remotePath => remotePath ++ a._file
  | none => a._file

/-- `ActivityListModel::data`. `index = none` is an invalid index and
`some row` a valid one. The result is `none` where the C++ code reads
`_finalList` out of range or dereferences a null `ast`. -/
def data (env : Collaborators) (m : ActivityListModel) (index : Option Nat)
    (role : DataRole) : Option QVariant :=
  match index with
  | none => some .invalid
  | some row =>
    match m._finalList[row]? with
    | none => none
    | some a =>
      let ast := env.account a._accName
      if ast.isNone && m._accountState.isSome then some .invalid
      else
        match role with
        | .DisplayPathRole =>
          if !a._file.isEmpty then
            match ast with
            | none => none
            | some acc =>
              match env.findFileInLocalFolders (relPathOf env a) acc with
              | first :: _ => some (.string first)
              | [] => some (.string "")
          else some (.string "")
        | .PathRole =>
          if !a._file.isEmpty then
            match ast with
            | none => none
            | some acc =>
              match env.findFileInLocalFolders (relPathOf env a) acc with
              | first :: _ => some (.url ("file:///" ++ first))
              | [] =>
                if env.fileInfoExists (relPathOf env a) then
                  match env.findFileInLocalFolders (env.fileInfoPath (relPathOf env a)) acc with
                  | first :: _ => some (.string first)
                  | [] => some (.string "")
                else some (.string "")
          else some (.string "")
        | .ActionsLinksRole => some (.list a._links)
        | .ActionIconRole =>
          if a._type = .NotificationType then
            some (.string "qrc:///client/theme/black/bell.svg")
          else if a._type = .SyncResultType then
            some (.string "qrc:///client/theme/black/state-error.svg")
          else if a._type = .SyncFileItemType then
            if a._status = .NormalError
                || a._status = .FatalError
                || a._status = .DetailError
                || a._status = .BlacklistedError then
              some (.string "qrc:///client/theme/black/state-error.svg")
            else if a._status = .SoftError
                || a._status = .Conflict
                || a._status = .Restoration
                || a._status = .FileLocked then
              some (.string "qrc:///client/theme/black/state-warning.svg")
            else if a._status = .FileIgnored then
              some (.string "qrc:///client/theme/black/state-info.svg")
            else
              some (.string "qrc:///client/theme/black/state-sync.svg")
          else
            some (.string "qrc:///client/theme/black/activity.svg")
        | .ObjectTypeRole => some (.string a._objectType)
        | .ActionRole =>
          match a._type with
          | .ActivityType => some (.string "Activity")
          | .NotificationType => some (.string "Notification")
          | .SyncFileItemType => some (.string "File")
          | .SyncResultType => some (.string "Sync")
          | .unnamed _ => some .invalid
        | .ActionTextRole => some (.string a._subject)
        | .MessageRole =>
          if a._message.isEmpty then some (.string "No description available.")
          else some (.string a._message)
        | .LinkRole =>
          if a._link.isEmpty then some (.string "") else some (.url a._link)
        | .AccountRole => some (.string a._accName)
        | .PointInTimeRole =>
          some (.string (env.localeShortDate a._dateTime ++ " (" ++
            env.timeAgoInWords a._dateTime ++ ")"))
        | .AccountConnectedRole =>
          match ast with
          | some acc => some (.bool acc.isConnected)
          | none => some (.bool false)
        | .unnamed _ => some .invalid

/-- The icon table as the specification words it: by type, and for sync file
items by status. -/
def specIcon (t : ActivityKind) (st : SyncFileItem.Status) : String :=
  match t with
  | .NotificationType => "qrc:///client/theme/black/bell.svg"
  | .SyncResultType => "qrc:///client/theme/black/state-error.svg"
  | .SyncFileItemType =>
    if st ∈ [SyncFileItem.Status.NormalError, .FatalError, .DetailError, .BlacklistedError] then
      "qrc:///client/theme/black/state-error.svg"
    else if st ∈ [SyncFileItem.Status.SoftError, .Conflict, .Restoration, .FileLocked] then
      "qrc:///client/theme/black/state-warning.svg"
    else if st = .FileIgnored then "qrc:///client/theme/black/state-info.svg"
    else "qrc:///client/theme/black/state-sync.svg"
  | _ => "qrc:///client/theme/black/activity.svg"

/-! ## Operations and executions -/

/-- The calls the model receives from the view, the account, the sync engine
and its own fetch jobs; `accountStateChanged` is a change of what the
`AccountState` object reports (the pointer itself never changes). -/
inductive Op where
  | fetchMore
  | slotRefreshActivity
  | slotActivitiesReceived (activities : List JsonActivity) (statusCode : Int)
  | slotRemoveAccount
  | addErrorToActivityList (activity : Activity)
  | addIgnoredFileToList (activity : Activity)
  | addNotificationToActivityList (activity : Activity)
  | addSyncFileItemToActivityList (activity : Activity)
  | clearNotifications
  | removeActivityFromActivityList (activity : Activity)
  | removeActivityFromActivityListRow (row : Nat)
  | accountStateChanged (now : AccountState)
  deriving DecidableEq, Repr

/-- A model together with the number of replies its jobs have delivered to
`slotActivitiesReceived`. -/
structure World where
  model : ActivityListModel
  delivered : Nat
  deriving DecidableEq, Repr

/-- The jobs started whose reply has not been delivered yet. -/
def inFlight (w : World) : Nat :=
  w.model.startedJobs.length - w.delivered

/-- The world around a freshly constructed model. -/
def World.fresh (accountState : Option AccountState) : World :=
  { model := ActivityListModel.fresh accountState, delivered := 0 }

/-- One call. `slotActivitiesReceived` is connected to the jobs of
`startFetchJob` only, so a reply needs a job in flight; the result is `none`
when the call cannot happen or the C++ code dereferences a null pointer or reads
out of range. -/
def step (lt eq : Activity → Activity → Bool) (w : World) : Op → Option World
  | .fetchMore => (fetchMore lt w.model).map fun m => { w with model := m }
  | .slotRefreshActivity => (slotRefreshActivity lt w.model).map fun m => { w with model := m }
  | .slotActivitiesReceived activities statusCode =>
    if inFlight w = 0 then none
    else
      some { model := slotActivitiesReceived lt w.model activities statusCode
             delivered := w.delivered + 1 }
  | .slotRemoveAccount => some { w with model := slotRemoveAccount w.model }
  | .addErrorToActivityList a => some { w with model := addErrorToActivityList lt w.model a }
  | .addIgnoredFileToList a => some { w with model := addIgnoredFileToList w.model a }
  | .addNotificationToActivityList a =>
    some { w with model := addNotificationToActivityList lt w.model a }
  | .addSyncFileItemToActivityList a =>
    some { w with model := addSyncFileItemToActivityList lt w.model a }
  | .clearNotifications => some { w with model := clearNotifications lt w.model }
  | .removeActivityFromActivityList a =>
    some { w with model := removeActivityFromActivityList lt eq w.model a }
  | .removeActivityFromActivityListRow row =>
    (removeActivityFromActivityListRow lt eq w.model row).map fun m => { w with model := m }
  | .accountStateChanged now =>
    some { w with
      model := { w.model with _accountState := w.model._accountState.map fun _ => now } }

/-- A sequence of calls, from left to right. -/
def run (lt eq : Activity → Activity → Bool) : World → List Op → Option World
  | w, [] => some w
  | w, op :: ops =>
    match step lt eq w op with
    | none => none
    | some w1 => run lt eq w1 ops


/-! ## Orderings and concrete inputs -/

/-- The requirement `std::sort` puts on `operator<`: a strict weak ordering. -/
structure StrictWeakOrder (lt : Activity → Activity → Bool) : Prop where
  irrefl : ∀ a, lt a a = false
  trans : ∀ a b c, lt a b = true → lt b c = true → lt a c = true
  incomp_trans : ∀ a b c, lt a b = false → lt b a = false → lt b c = false →
    lt c b = false → lt a c = false ∧ lt c a = false

/-- A range is sorted when no entry is ordered strictly before an entry that
precedes it. -/
def SortedUnder (lt : Activity → Activity → Bool) (l : List Activity) : Prop :=
  l.Pairwise (notAfter lt)

instance (lt : Activity → Activity → Bool) (l : List Activity) : Decidable (SortedUnder lt l) :=
  inferInstanceAs (Decidable (l.Pairwise (notAfter lt)))

/-- An ordering to evaluate the model at: the later date first. -/
def newestFirst (a b : Activity) : Bool :=
  decide (b._dateTime < a._dateTime)

/-- An equality to evaluate the model at: same type, id and account name. -/
def sameEntry (a b : Activity) : Bool :=
  decide (a._type = b._type) && decide (a._id = b._id) && decide (a._accName = b._accName)

/-- A connected account whose server offers the activity feed. -/
def onlineAccount : AccountState :=
  { isConnected := true, displayName := "ada", hasActivities := true }

/-- A concrete entry with the given type, id, file name and date. -/
def entry (t : ActivityKind) (id : Int) (file : String) (date : QDateTime) : Activity :=
  { Activity.blank with _type := t, _id := id, _accName := "ada", _file := file,
                        _dateTime := date }

/-- The ignored-files notice as a segment of the final list: present exactly
when the list of ignored files is non-empty. -/
def noticeSegment (m : ActivityListModel) : List Activity :=
  if m._listOfIgnoredFiles = [] then [] else [m._notificationIgnoredFiles]

/-- A sync error dated 10. -/
def oldError : Activity := entry .SyncResultType 1 "" 10

/-- A notification dated 20, later than `oldError`. -/
def newNotification : Activity := entry .NotificationType 2 "" 20

/-- A model holding one error and one later notification. -/
def errorThenNotification : ActivityListModel :=
  { ActivityListModel.fresh (some onlineAccount) with
    _notificationErrorsLists := [oldError]
    _notificationLists := [newNotification] }

/-- The call is a reply delivered to `slotActivitiesReceived`. -/
def Op.isReply : Op → Bool
  | .slotActivitiesReceived _ _ => true
  | _ => false

/-- The call is `slotRefreshActivity`. -/
def Op.isRefresh : Op → Bool
  | .slotRefreshActivity => true
  | _ => false

/-- The call is `slotRemoveAccount`. -/
def Op.isRemoveAccount : Op → Bool
  | .slotRemoveAccount => true
  | _ => false

/-- The calling discipline under which fetches do not overlap: the view calls
`fetchMore` only after `canFetchMore` returned true, and the owner calls
`slotRefreshActivity` and `slotRemoveAccount` only while no fetch is in flight. -/
def permitted (w : World) : Op → Bool
  | .fetchMore => canFetchMore w.model
  | .slotRefreshActivity => inFlight w = 0
  | .slotRemoveAccount => inFlight w = 0
  | _ => true

/-- Every call of the sequence is `permitted` in the state it is made in. -/
def disciplined (lt eq : Activity → Activity → Bool) : World → List Op → Bool
  | _, [] => true
  | w, op :: ops =>
    permitted w op &&
      match step lt eq w op with
      | none => true
      | some w1 => disciplined lt eq w1 ops

/-- The number of activities received since the last `slotRefreshActivity` or
`slotRemoveAccount`, counted along a sequence of calls starting from `sofar`. -/
def receivedSinceReset (sofar : Nat) : List Op → Nat
  | [] => sofar
  | .slotActivitiesReceived activities _ :: ops =>
    receivedSinceReset (sofar + activities.length) ops
  | .slotRefreshActivity :: ops => receivedSinceReset 0 ops
  | .slotRemoveAccount :: ops => receivedSinceReset 0 ops
  | _ :: ops => receivedSinceReset sofar ops

/-- One activity of a reply. -/
def replyItem : JsonActivity :=
  { id := 7, subject := "shared a file", message := "", file := "notes.txt", link := "",
    date := 5 }

/-- A refresh, its reply with one activity, and the view asking for the next
page. -/
def pagedSession : List Op :=
  [.slotRefreshActivity, .slotActivitiesReceived [replyItem] 200, .fetchMore]

/-- The model `errorThenNotification` right after `startFetchJob` started a job. -/
def fetchingModel : ActivityListModel :=
  { errorThenNotification with
    startedJobs := [{ start := 0, count := 100 }]
    _currentlyFetching := true }

/-- A refresh, its reply with one activity, and the user dismissing that
activity. -/
def dismissSession : List Op :=
  [.slotRefreshActivity, .slotActivitiesReceived [replyItem] 200,
   .removeActivityFromActivityListRow 0]

/-- An account state that is present but not connected. -/
def offlineAccount : AccountState :=
  { isConnected := false, displayName := "ada", hasActivities := true }

/-- Three ignored files reported in a row; the second and third have the same
file name. -/
def ignoredA : Activity := entry .SyncFileItemType 1 "a.txt" 1

/-- The second ignored file. -/
def ignoredB : Activity := entry .SyncFileItemType 2 "b.txt" 2

/-- Collaborators that resolve every account name to `onlineAccount` and know
no folder and no local file. -/
def plainCollaborators : Collaborators :=
  { account := fun _ => some onlineAccount
    folderRemotePath := fun _ => none
    findFileInLocalFolders := fun _ _ => []
    fileInfoExists := fun _ => false
    fileInfoPath := fun path => path
    localeShortDate := fun _ => ""
    timeAgoInWords := fun _ => "" }

/-- The four source lists are each in sorted order, as `combineActivityLists`
leaves them. -/
def SourceListsSorted (lt : Activity → Activity → Bool) (m : ActivityListModel) : Prop :=
  SortedUnder lt m._notificationErrorsLists ∧ SortedUnder lt m._notificationLists
    ∧ SortedUnder lt m._syncFileItemLists ∧ SortedUnder lt m._activityLists

/-- The final list is up to date: it is the source lists and the notice as they
stand, laid end to end in the order `combineActivityLists` uses. -/
def FinalListUpToDate (m : ActivityListModel) : Prop :=
  m._finalList = m._notificationErrorsLists ++ noticeSegment m ++ m._notificationLists ++
    m._syncFileItemLists ++ m._activityLists

instance (lt : Activity → Activity → Bool) (m : ActivityListModel) :
    Decidable (SourceListsSorted lt m) := by
  unfold SourceListsSorted
  infer_instance

instance (m : ActivityListModel) : Decidable (FinalListUpToDate m) := by
  unfold FinalListUpToDate
  infer_instance

/-- The source list `removeActivityFromActivityList` searches for an activity:
chosen by the activity's type. -/
def chosenList (m : ActivityListModel) (activity : Activity) : List Activity :=
  match activity._type with
  | .ActivityType => m._activityLists
  | .NotificationType => m._notificationLists
  | _ => m._notificationErrorsLists

/-- The number of rows the source lists and the notice combine to. -/
def sourceCount (m : ActivityListModel) : Nat :=
  m._notificationErrorsLists.length + (noticeSegment m).length + m._notificationLists.length
    + m._syncFileItemLists.length + m._activityLists.length

/-- An offline model holding one notification. -/
def offlineModel : ActivityListModel :=
  { ActivityListModel.fresh (some offlineAccount) with
    _notificationLists := [newNotification] }

/-- Pages fetched one after the other: `k` times a `fetchMore` followed by a reply
carrying one activity. -/
def manyPages : Nat → List Op
  | 0 => []
  | k + 1 => .fetchMore :: .slotActivitiesReceived [replyItem] 200 :: manyPages k

/-- A model on a connected account whose paging offset is the largest `int`. -/
def atIntMax : ActivityListModel :=
  { ActivityListModel.fresh (some onlineAccount) with _currentItem := 2147483647 }

/-- A second activity of a reply. -/
def replyItem2 : JsonActivity :=
  { id := 8, subject := "commented", message := "", file := "", link := "", date := 6 }

/-! # Theorems -/

/-! ## Facts about sorting and searching -/

theorem StrictWeakOrder.asymm {lt : Activity → Activity → Bool} (h : StrictWeakOrder lt)
    (a b : Activity) (hab : lt a b = true) : lt b a = false := by
  cases hba : lt b a with
  | false => rfl
  | true =>
    have := h.trans a b a hab hba
    rw [h.irrefl a] at this
    exact absurd this (by decide)

theorem StrictWeakOrder.notAfter_total {lt : Activity → Activity → Bool}
    (h : StrictWeakOrder lt) (a b : Activity) : notAfter lt a b ∨ notAfter lt b a := by
  unfold notAfter
  cases hba : lt b a with
  | false => exact Or.inl rfl
  | true => exact Or.inr (h.asymm b a hba)

theorem StrictWeakOrder.notAfter_trans {lt : Activity → Activity → Bool}
    (h : StrictWeakOrder lt) (a b c : Activity) (hab : notAfter lt a b)
    (hbc : notAfter lt b c) : notAfter lt a c := by
  unfold notAfter at *
  cases hca : lt c a with
  | false => rfl
  | true =>
    cases hab2 : lt a b with
    | true =>
      have := h.trans c a b hca hab2
      rw [hbc] at this
      exact absurd this (by decide)
    | false =>
      cases hbc2 : lt b c with
      | true =>
        have := h.trans b c a hbc2 hca
        rw [hab] at this
        exact absurd this (by decide)
      | false =>
        have := (h.incomp_trans a b c hab2 hab hbc2 hbc).2
        rw [hca] at this
        exact absurd this (by decide)

theorem stdSort_nil (lt : Activity → Activity → Bool) : stdSort lt [] = [] := rfl

theorem stdSort_perm (lt : Activity → Activity → Bool) (l : List Activity) :
    (stdSort lt l).Perm l :=
  List.perm_insertionSort _ l

theorem stdSort_length (lt : Activity → Activity → Bool) (l : List Activity) :
    (stdSort lt l).length = l.length :=
  (stdSort_perm lt l).length_eq

theorem stdSort_sorted {lt : Activity → Activity → Bool} (h : StrictWeakOrder lt)
    (l : List Activity) : SortedUnder lt (stdSort lt l) := by
  haveI : IsTotal Activity (notAfter lt) := ⟨h.notAfter_total⟩
  haveI : IsTrans Activity (notAfter lt) := ⟨h.notAfter_trans⟩
  exact List.sorted_insertionSort (notAfter lt) l

theorem wrapInt_of_range (x : Int) (h : InIntRange x) : wrapInt x = x := by
  unfold InIntRange INT_MIN INT_MAX at h
  unfold wrapInt
  omega

theorem wrapInt_add (x y : Int) : wrapInt (wrapInt x + y) = wrapInt (x + y) := by
  unfold wrapInt
  omega

theorem sortIfNonempty (lt : Activity → Activity → Bool) (l : List Activity) :
    (if l.length > 0 then stdSort lt l else l) = stdSort lt l := by
  cases l with
  | nil => rfl
  | cons a t => simp

theorem appendIfNonempty (lt : Activity → Activity → Bool) (r l : List Activity) :
    (if l.length > 0 then r ++ stdSort lt l else r) = r ++ stdSort lt l := by
  cases l with
  | nil => simp [stdSort_nil]
  | cons a t => simp

theorem sortOrNil (lt : Activity → Activity → Bool) (l : List Activity) :
    (if l.length > 0 then stdSort lt l else []) = stdSort lt l := by
  cases l with
  | nil => rfl
  | cons a t => simp

theorem combine_eq (lt : Activity → Activity → Bool) (m : ActivityListModel) :
    combineActivityLists lt m =
      { m with
        _notificationErrorsLists := stdSort lt m._notificationErrorsLists
        _notificationLists := stdSort lt m._notificationLists
        _syncFileItemLists := stdSort lt m._syncFileItemLists
        _activityLists := stdSort lt m._activityLists
        _finalList := stdSort lt m._notificationErrorsLists ++ noticeSegment m ++
          stdSort lt m._notificationLists ++ stdSort lt m._syncFileItemLists ++
          stdSort lt m._activityLists } := by
  unfold combineActivityLists noticeSegment
  simp only [sortIfNonempty, appendIfNonempty, List.nil_append, sortOrNil]
  cases h : m._listOfIgnoredFiles with
  | nil => simp
  | cons a t => simp

theorem newestFirst_strictWeakOrder : StrictWeakOrder newestFirst where
  irrefl := by intro a; simp [newestFirst]
  trans := by
    intro a b c h1 h2
    simp only [newestFirst, decide_eq_true_eq] at *
    exact lt_trans h2 h1
  incomp_trans := by
    intro a b c h1 h2 h3 h4
    simp only [newestFirst, decide_eq_false_iff_not, not_lt] at *
    exact ⟨le_trans h1 h3, le_trans h4 h2⟩

/-! ## C1, C2: the combined list -/

/-- C1: for every model state, `combineActivityLists` leaves as final list the
error list sorted, then the ignored-files notice exactly when the list of
ignored files is non-empty, then the notification list sorted, then the
sync-file-item list sorted, then the fetched-activity list sorted; every sorted
segment is a permutation of its source list as it was before the call (and is in
sorted order whenever `operator<` is a strict weak ordering), and `rowCount` is
the length of the concatenation. -/
theorem C1_combineActivityLists_concatenation (lt : Activity → Activity → Bool)
    (m : ActivityListModel) :
    (combineActivityLists lt m)._finalList =
        stdSort lt m._notificationErrorsLists ++
          (if m._listOfIgnoredFiles = [] then [] else [m._notificationIgnoredFiles]) ++
          stdSort lt m._notificationLists ++ stdSort lt m._syncFileItemLists ++
          stdSort lt m._activityLists
      ∧ (stdSort lt m._notificationErrorsLists).Perm m._notificationErrorsLists
      ∧ (stdSort lt m._notificationLists).Perm m._notificationLists
      ∧ (stdSort lt m._syncFileItemLists).Perm m._syncFileItemLists
      ∧ (stdSort lt m._activityLists).Perm m._activityLists
      ∧ rowCount (combineActivityLists lt m) =
          m._notificationErrorsLists.length +
            (if m._listOfIgnoredFiles = [] then 0 else 1) +
            m._notificationLists.length + m._syncFileItemLists.length +
            m._activityLists.length
      ∧ (StrictWeakOrder lt →
          SortedUnder lt (stdSort lt m._notificationErrorsLists)
          ∧ SortedUnder lt (stdSort lt m._notificationLists)
          ∧ SortedUnder lt (stdSort lt m._syncFileItemLists)
          ∧ SortedUnder lt (stdSort lt m._activityLists)) := by
  refine ⟨?_, stdSort_perm _ _, stdSort_perm _ _, stdSort_perm _ _, stdSort_perm _ _, ?_, ?_⟩
  · rw [combine_eq]; rfl
  · rw [combine_eq]
    simp only [rowCount, noticeSegment, List.length_append, stdSort_length]
    split <;> simp
  · intro h
    exact ⟨stdSort_sorted h _, stdSort_sorted h _, stdSort_sorted h _, stdSort_sorted h _⟩

/-- C1 at a model with one error and one notification, under the
newest-first ordering. -/
theorem C1_combineActivityLists_concatenation_witness :
    (combineActivityLists newestFirst errorThenNotification)._finalList =
        [oldError, newNotification]
      ∧ rowCount (combineActivityLists newestFirst errorThenNotification) = 2
      ∧ SortedUnder newestFirst (stdSort newestFirst [oldError]) := by
  have h := C1_combineActivityLists_concatenation newestFirst errorThenNotification
  refine ⟨?_, ?_, ?_⟩
  · rw [h.1]; rfl
  · rw [h.2.2.2.2.2.1]; rfl
  · exact (h.2.2.2.2.2.2 newestFirst_strictWeakOrder).1

/-- C2, refuted as stated: under the newest-first ordering, a model holding
one error and one later notification gets the final list error, notification;
the notification is ordered strictly before the error that precedes it. -/
theorem C2_final_list_not_sorted :
    StrictWeakOrder newestFirst
      ∧ (combineActivityLists newestFirst errorThenNotification)._finalList =
          [oldError, newNotification]
      ∧ newestFirst newNotification oldError = true
      ∧ ¬ SortedUnder newestFirst
          (combineActivityLists newestFirst errorThenNotification)._finalList := by
  refine ⟨newestFirst_strictWeakOrder, by decide, by decide, by decide⟩

/-- C2, amended: when `operator<` is a strict weak ordering, after
`combineActivityLists` each of the four source lists is sorted, and the final
list is these four sorted runs laid end to end in the fixed order errors, the
ignored-files notice, notifications, sync file items, fetched activities. -/
theorem C2_final_list_sorted_runs (lt : Activity → Activity → Bool)
    (hlt : StrictWeakOrder lt) (m : ActivityListModel) :
    SortedUnder lt (combineActivityLists lt m)._notificationErrorsLists
      ∧ SortedUnder lt (combineActivityLists lt m)._notificationLists
      ∧ SortedUnder lt (combineActivityLists lt m)._syncFileItemLists
      ∧ SortedUnder lt (combineActivityLists lt m)._activityLists
      ∧ (combineActivityLists lt m)._finalList =
          (combineActivityLists lt m)._notificationErrorsLists ++
            noticeSegment (combineActivityLists lt m) ++
            (combineActivityLists lt m)._notificationLists ++
            (combineActivityLists lt m)._syncFileItemLists ++
            (combineActivityLists lt m)._activityLists := by
  rw [combine_eq]
  exact ⟨stdSort_sorted hlt _, stdSort_sorted hlt _, stdSort_sorted hlt _,
    stdSort_sorted hlt _, rfl⟩

/-- C2, amended, at the model with one error and one later notification. -/
theorem C2_final_list_sorted_runs_witness :
    SortedUnder newestFirst
        (combineActivityLists newestFirst errorThenNotification)._notificationErrorsLists
      ∧ SortedUnder newestFirst
        (combineActivityLists newestFirst errorThenNotification)._notificationLists :=
  have h := C2_final_list_sorted_runs newestFirst newestFirst_strictWeakOrder
    errorThenNotification
  ⟨h.1, h.2.1⟩

/-! ## What each call leaves alone -/

@[simp] theorem combine_startedJobs (lt : Activity → Activity → Bool) (m : ActivityListModel) :
    (combineActivityLists lt m).startedJobs = m.startedJobs := rfl

@[simp] theorem combine_currentlyFetching (lt : Activity → Activity → Bool)
    (m : ActivityListModel) :
    (combineActivityLists lt m)._currentlyFetching = m._currentlyFetching := rfl

@[simp] theorem combine_doneFetching (lt : Activity → Activity → Bool)
    (m : ActivityListModel) :
    (combineActivityLists lt m)._doneFetching = m._doneFetching := rfl

@[simp] theorem combine_currentItem (lt : Activity → Activity → Bool) (m : ActivityListModel) :
    (combineActivityLists lt m)._currentItem = m._currentItem := rfl

@[simp] theorem combine_accountState (lt : Activity → Activity → Bool) (m : ActivityListModel) :
    (combineActivityLists lt m)._accountState = m._accountState := rfl

@[simp] theorem combine_listOfIgnoredFiles (lt : Activity → Activity → Bool)
    (m : ActivityListModel) :
    (combineActivityLists lt m)._listOfIgnoredFiles = m._listOfIgnoredFiles := rfl

@[simp] theorem combine_notificationIgnoredFiles (lt : Activity → Activity → Bool)
    (m : ActivityListModel) :
    (combineActivityLists lt m)._notificationIgnoredFiles = m._notificationIgnoredFiles := rfl

@[simp] theorem combine_activityLists (lt : Activity → Activity → Bool)
    (m : ActivityListModel) :
    (combineActivityLists lt m)._activityLists = stdSort lt m._activityLists := by
  rw [combine_eq]

@[simp] theorem combine_notificationLists (lt : Activity → Activity → Bool)
    (m : ActivityListModel) :
    (combineActivityLists lt m)._notificationLists = stdSort lt m._notificationLists := by
  rw [combine_eq]

@[simp] theorem combine_syncFileItemLists (lt : Activity → Activity → Bool)
    (m : ActivityListModel) :
    (combineActivityLists lt m)._syncFileItemLists = stdSort lt m._syncFileItemLists := by
  rw [combine_eq]

@[simp] theorem combine_notificationErrorsLists (lt : Activity → Activity → Bool)
    (m : ActivityListModel) :
    (combineActivityLists lt m)._notificationErrorsLists =
      stdSort lt m._notificationErrorsLists := by
  rw [combine_eq]

/-- The part of the state the fetch bookkeeping lives in. -/
theorem removeActivity_frame (lt eq : Activity → Activity → Bool) (m : ActivityListModel)
    (a : Activity) :
    (removeActivityFromActivityList lt eq m a).startedJobs = m.startedJobs
      ∧ (removeActivityFromActivityList lt eq m a)._currentlyFetching = m._currentlyFetching
      ∧ (removeActivityFromActivityList lt eq m a)._doneFetching = m._doneFetching
      ∧ (removeActivityFromActivityList lt eq m a)._currentItem = m._currentItem
      ∧ (removeActivityFromActivityList lt eq m a)._accountState = m._accountState := by
  unfold removeActivityFromActivityList
  dsimp only
  split_ifs <;> simp

theorem addIgnoredFile_frame (m : ActivityListModel) (a : Activity) :
    (addIgnoredFileToList m a).startedJobs = m.startedJobs
      ∧ (addIgnoredFileToList m a)._currentlyFetching = m._currentlyFetching
      ∧ (addIgnoredFileToList m a)._doneFetching = m._doneFetching
      ∧ (addIgnoredFileToList m a)._currentItem = m._currentItem
      ∧ (addIgnoredFileToList m a)._accountState = m._accountState
      ∧ (addIgnoredFileToList m a)._activityLists = m._activityLists := by
  unfold addIgnoredFileToList
  dsimp only
  split_ifs <;> simp

/-! ## Fetching -/

theorem fetchMore_eq (lt : Activity → Activity → Bool) (m : ActivityListModel) :
    fetchMore lt m =
      match m._accountState with
      | none => none
      | some ast =>
        if ast.isConnected && ast.hasActivities then
          some { m with
            startedJobs := m.startedJobs ++ [{ start := m._currentItem, count := 100 }]
            _currentlyFetching := true }
        else some (combineActivityLists lt { m with _doneFetching := true }) := by
  unfold fetchMore canFetchActivities startFetchJob
  cases h : m._accountState with
  | none => rfl
  | some ast =>
    cases hc : ast.isConnected <;> cases ha : ast.hasActivities <;> simp [hc, ha]

theorem slotRefreshActivity_eq (lt : Activity → Activity → Bool) (m : ActivityListModel) :
    slotRefreshActivity lt m =
      match m._accountState with
      | none => none
      | some ast =>
        if ast.isConnected && ast.hasActivities then
          some { m with
            _activityLists := []
            _doneFetching := false
            _currentItem := 0
            startedJobs := m.startedJobs ++ [{ start := 0, count := 100 }]
            _currentlyFetching := true }
        else
          some (combineActivityLists lt
            { m with _activityLists := [], _doneFetching := true, _currentItem := 0 }) := by
  unfold slotRefreshActivity canFetchActivities startFetchJob
  cases h : m._accountState with
  | none => rfl
  | some ast =>
    cases hc : ast.isConnected <;> cases ha : ast.hasActivities <;> simp [hc, ha]

theorem canFetchMore_iff (m : ActivityListModel) :
    canFetchMore m = true ↔
      (∃ ast, m._accountState = some ast ∧ ast.isConnected = true)
        ∧ m._doneFetching = false ∧ m._currentlyFetching = false := by
  unfold canFetchMore
  cases h : m._accountState with
  | none => simp
  | some ast =>
    cases hc : ast.isConnected <;> cases hd : m._doneFetching <;>
      cases hf : m._currentlyFetching <;> simp [hc]

theorem slotActivitiesReceived_eq (lt : Activity → Activity → Bool) (m : ActivityListModel)
    (ast : AccountState) (h : m._accountState = some ast) (activities : List JsonActivity)
    (statusCode : Int) :
    slotActivitiesReceived lt m activities statusCode =
      combineActivityLists lt
        { m with
          _doneFetching := if activities.length = 0 then true else m._doneFetching
          _currentlyFetching := false
          _currentItem := wrapInt (m._currentItem + activities.length)
          _activityLists := m._activityLists ++ activities.map (activityOfJson ast)
          emittedStatusCodes := m.emittedStatusCodes ++ [statusCode] } := by
  unfold slotActivitiesReceived
  split
  · rename_i h2
    rw [h] at h2
    cases h2
  · rename_i ast2 h2
    rw [h] at h2
    cases h2
    dsimp only
    split_ifs <;> rfl

theorem slotActivitiesReceived_noAccount (lt : Activity → Activity → Bool)
    (m : ActivityListModel) (h : m._accountState = none) (activities : List JsonActivity)
    (statusCode : Int) : slotActivitiesReceived lt m activities statusCode = m := by
  unfold slotActivitiesReceived
  rw [h]

/-! ## C3: fetches in flight -/

/-- Under the calling discipline one call keeps at most one fetch in flight, and
keeps the currently-fetching flag set while one is. -/
theorem step_one_in_flight (lt eq : Activity → Activity → Bool) (w w1 : World) (op : Op)
    (hp : permitted w op = true) (hs : step lt eq w op = some w1)
    (hinv : inFlight w ≤ 1 ∧ (inFlight w = 1 → w.model._currentlyFetching = true)) :
    inFlight w1 ≤ 1 ∧ (inFlight w1 = 1 → w1.model._currentlyFetching = true) := by
  obtain ⟨h1, h2⟩ := hinv
  cases op with
  | fetchMore =>
    simp only [permitted, canFetchMore_iff] at hp
    obtain ⟨⟨ast, hast, -⟩, -, hcf⟩ := hp
    have h0 : inFlight w = 0 := by
      rcases Nat.le_one_iff_eq_zero_or_eq_one.mp h1 with h | h
      · exact h
      · rw [h2 h] at hcf; exact absurd hcf (by decide)
    simp only [step, fetchMore_eq, hast] at hs
    unfold inFlight at *
    split_ifs at hs <;> simp at hs <;> subst hs <;> simp <;> omega
  | slotRefreshActivity =>
    simp only [permitted, decide_eq_true_eq] at hp
    simp only [step, slotRefreshActivity_eq] at hs
    unfold inFlight at *
    cases hast : w.model._accountState with
    | none => simp [hast] at hs
    | some ast =>
      simp only [hast] at hs
      split_ifs at hs <;> simp at hs <;> subst hs <;> simp <;> omega
  | slotActivitiesReceived activities statusCode =>
    simp only [step] at hs
    split_ifs at hs with h0
    simp at hs
    subst hs
    unfold inFlight at *
    cases hast : w.model._accountState with
    | none =>
      rw [slotActivitiesReceived_noAccount lt _ hast]
      simp
      omega
    | some ast =>
      rw [slotActivitiesReceived_eq lt _ ast hast]
      simp
      omega
  | slotRemoveAccount =>
    simp only [permitted, decide_eq_true_eq] at hp
    simp only [step, Option.some.injEq] at hs
    subst hs
    unfold inFlight at *
    simp [slotRemoveAccount]
    omega
  | addErrorToActivityList a =>
    simp only [step, Option.some.injEq] at hs
    subst hs
    exact ⟨h1, h2⟩
  | addIgnoredFileToList a =>
    simp only [step, Option.some.injEq] at hs
    subst hs
    have hf := addIgnoredFile_frame w.model a
    unfold inFlight at *
    simp only [hf.1, hf.2.1]
    exact ⟨h1, h2⟩
  | addNotificationToActivityList a =>
    simp only [step, Option.some.injEq] at hs
    subst hs
    exact ⟨h1, h2⟩
  | addSyncFileItemToActivityList a =>
    simp only [step, Option.some.injEq] at hs
    subst hs
    exact ⟨h1, h2⟩
  | clearNotifications =>
    simp only [step, Option.some.injEq] at hs
    subst hs
    exact ⟨h1, h2⟩
  | removeActivityFromActivityList a =>
    simp only [step, Option.some.injEq] at hs
    subst hs
    have hf := removeActivity_frame lt eq w.model a
    unfold inFlight at *
    simp only [hf.1, hf.2.1]
    exact ⟨h1, h2⟩
  | removeActivityFromActivityListRow row =>
    simp only [step, removeActivityFromActivityListRow] at hs
    split at hs
    · simp at hs
    · rename_i a ha
      simp at hs
      subst hs
      have hf := removeActivity_frame lt eq w.model a
      unfold inFlight at *
      simp only [combine_startedJobs, combine_currentlyFetching, hf.1, hf.2.1]
      exact ⟨h1, h2⟩
  | accountStateChanged now =>
    simp only [step, Option.some.injEq] at hs
    subst hs
    exact ⟨h1, h2⟩

theorem run_one_in_flight (lt eq : Activity → Activity → Bool) (ops : List Op) :
    ∀ (w w1 : World), disciplined lt eq w ops = true → run lt eq w ops = some w1 →
      (inFlight w ≤ 1 ∧ (inFlight w = 1 → w.model._currentlyFetching = true)) →
      inFlight w1 ≤ 1 ∧ (inFlight w1 = 1 → w1.model._currentlyFetching = true) := by
  induction ops with
  | nil =>
    intro w w1 _ hr hinv
    simp only [run, Option.some.injEq] at hr
    subst hr
    exact hinv
  | cons op ops ih =>
    intro w w1 hd hr hinv
    simp only [run] at hr
    simp only [disciplined, Bool.and_eq_true] at hd
    cases hs : step lt eq w op with
    | none => simp [hs] at hr
    | some w2 =>
      simp only [hs] at hr hd
      exact ih w2 w1 hd.2 hr (step_one_in_flight lt eq w w2 op hd.1 hs hinv)

/-- C3, refuted as stated: from a freshly constructed model on a connected
account, two `slotRefreshActivity` calls (and likewise two `fetchMore` calls)
start two jobs; no reply has been delivered, so the second job starts while the
first is in flight. So does a `fetchMore` made when `canFetchMore` is true, once
`slotRemoveAccount` has cleared the flag of a job still in flight. -/
theorem C3_second_fetch_overlaps :
    (run newestFirst sameEntry (World.fresh (some onlineAccount))
        [.slotRefreshActivity, .slotRefreshActivity]).map
        (fun w => (w.model.startedJobs, w.delivered, inFlight w)) =
      some ([{ start := 0, count := 100 }, { start := 0, count := 100 }], 0, 2)
    ∧ (run newestFirst sameEntry (World.fresh (some onlineAccount))
        [.fetchMore, .fetchMore]).map
        (fun w => (w.model.startedJobs, w.delivered, inFlight w)) =
      some ([{ start := 0, count := 100 }, { start := 0, count := 100 }], 0, 2)
    ∧ (run newestFirst sameEntry (World.fresh (some onlineAccount))
        [.slotRefreshActivity, .slotRemoveAccount]).map
        (fun w => (inFlight w, canFetchMore w.model)) = some (1, true)
    ∧ (run newestFirst sameEntry (World.fresh (some onlineAccount))
        [.slotRefreshActivity, .slotRemoveAccount, .fetchMore]).map
        (fun w => (w.model.startedJobs, w.delivered, inFlight w)) =
      some ([{ start := 0, count := 100 }, { start := 0, count := 100 }], 0, 2) := by
  refine ⟨?_, ?_, ?_, ?_⟩ <;> rfl

/-- C3, amended: the model does not refuse a second fetch; its
currently-fetching flag only makes `canFetchMore` return false. In every
sequence of calls from a freshly constructed model in which `fetchMore` is
called only when `canFetchMore` returns true and `slotRefreshActivity` and
`slotRemoveAccount` are called only while no fetch is in flight, at most one
fetch is in flight, and while one is in flight `canFetchMore` returns false. -/
theorem C3_one_fetch_under_discipline (lt eq : Activity → Activity → Bool)
    (accountState : Option AccountState) (ops : List Op) (w : World)
    (hd : disciplined lt eq (World.fresh accountState) ops = true)
    (hr : run lt eq (World.fresh accountState) ops = some w) :
    inFlight w ≤ 1 ∧ (inFlight w = 1 → canFetchMore w.model = false) := by
  have h := run_one_in_flight lt eq ops (World.fresh accountState) w hd hr
    ⟨by simp [inFlight, World.fresh, ActivityListModel.fresh],
     by simp [inFlight, World.fresh, ActivityListModel.fresh]⟩
  refine ⟨h.1, fun h1 => ?_⟩
  have hcf := h.2 h1
  cases hc : canFetchMore w.model with
  | false => rfl
  | true =>
    rw [canFetchMore_iff] at hc
    rw [hc.2.2] at hcf
    exact absurd hcf (by decide)

/-- C3, amended, on a refresh, its reply, and a further page fetched. -/
theorem C3_one_fetch_under_discipline_witness :
    disciplined newestFirst sameEntry (World.fresh (some onlineAccount)) pagedSession = true
      ∧ ∃ w, run newestFirst sameEntry (World.fresh (some onlineAccount)) pagedSession = some w
        ∧ inFlight w ≤ 1 ∧ (inFlight w = 1 → canFetchMore w.model = false) := by
  have hrun : ∃ w, run newestFirst sameEntry (World.fresh (some onlineAccount)) pagedSession
      = some w := ⟨_, rfl⟩
  obtain ⟨w, hw⟩ := hrun
  exact ⟨by rfl, w, hw,
    C3_one_fetch_under_discipline newestFirst sameEntry (some onlineAccount) pagedSession w
      (by rfl) hw⟩

/-! ## C4: `canFetchMore` -/

/-- The currently-fetching flag stays set through every call other than a reply
and `slotRemoveAccount`. -/
theorem step_keeps_fetching (lt eq : Activity → Activity → Bool) (w w1 : World) (op : Op)
    (hs : step lt eq w op = some w1) (hreply : op.isReply = false)
    (hremove : op.isRemoveAccount = false) (hcf : w.model._currentlyFetching = true) :
    w1.model._currentlyFetching = true := by
  cases op with
  | fetchMore =>
    simp only [step, fetchMore_eq] at hs
    cases hast : w.model._accountState with
    | none => simp [hast] at hs
    | some ast =>
      simp only [hast] at hs
      split_ifs at hs <;> simp at hs <;> subst hs <;> simp [hcf]
  | slotRefreshActivity =>
    simp only [step, slotRefreshActivity_eq] at hs
    cases hast : w.model._accountState with
    | none => simp [hast] at hs
    | some ast =>
      simp only [hast] at hs
      split_ifs at hs <;> simp at hs <;> subst hs <;> simp [hcf]
  | slotActivitiesReceived activities statusCode => simp [Op.isReply] at hreply
  | slotRemoveAccount => simp [Op.isRemoveAccount] at hremove
  | addErrorToActivityList a =>
    simp only [step, Option.some.injEq] at hs
    subst hs
    exact hcf
  | addIgnoredFileToList a =>
    simp only [step, Option.some.injEq] at hs
    subst hs
    rw [← hcf]
    exact (addIgnoredFile_frame w.model a).2.1
  | addNotificationToActivityList a =>
    simp only [step, Option.some.injEq] at hs
    subst hs
    exact hcf
  | addSyncFileItemToActivityList a =>
    simp only [step, Option.some.injEq] at hs
    subst hs
    exact hcf
  | clearNotifications =>
    simp only [step, Option.some.injEq] at hs
    subst hs
    exact hcf
  | removeActivityFromActivityList a =>
    simp only [step, Option.some.injEq] at hs
    subst hs
    rw [← hcf]
    exact (removeActivity_frame lt eq w.model a).2.1
  | removeActivityFromActivityListRow row =>
    simp only [step, removeActivityFromActivityListRow] at hs
    split at hs
    · simp at hs
    · rename_i a ha
      simp at hs
      subst hs
      rw [← hcf]
      exact (removeActivity_frame lt eq w.model a).2.1
  | accountStateChanged now =>
    simp only [step, Option.some.injEq] at hs
    subst hs
    exact hcf

/-- Once fetching is reported done (or with no account state at all) it stays so
through every call other than `slotRefreshActivity` and `slotRemoveAccount`. -/
theorem step_keeps_done (lt eq : Activity → Activity → Bool) (w w1 : World) (op : Op)
    (hs : step lt eq w op = some w1) (hrefresh : op.isRefresh = false)
    (hremove : op.isRemoveAccount = false)
    (hd : w.model._accountState = none ∨ w.model._doneFetching = true) :
    w1.model._accountState = none ∨ w1.model._doneFetching = true := by
  cases op with
  | fetchMore =>
    simp only [step, fetchMore_eq] at hs
    cases hast : w.model._accountState with
    | none => simp [hast] at hs
    | some ast =>
      simp only [hast] at hs
      rcases hd with hd | hd
      · rw [hast] at hd; cases hd
      · split_ifs at hs <;> simp at hs <;> subst hs <;> simp [hd]
  | slotRefreshActivity => simp [Op.isRefresh] at hrefresh
  | slotActivitiesReceived activities statusCode =>
    simp only [step] at hs
    split_ifs at hs with h0
    simp at hs
    subst hs
    cases hast : w.model._accountState with
    | none =>
      rw [slotActivitiesReceived_noAccount lt _ hast]
      exact Or.inl hast
    | some ast =>
      rcases hd with hd | hd
      · rw [hast] at hd; cases hd
      · rw [slotActivitiesReceived_eq lt _ ast hast]
        right
        simp [hd]
  | slotRemoveAccount => simp [Op.isRemoveAccount] at hremove
  | addErrorToActivityList a =>
    simp only [step, Option.some.injEq] at hs
    subst hs
    exact hd
  | addIgnoredFileToList a =>
    simp only [step, Option.some.injEq] at hs
    subst hs
    have hf := addIgnoredFile_frame w.model a
    simp only [hf.2.2.1, hf.2.2.2.2.1]
    exact hd
  | addNotificationToActivityList a =>
    simp only [step, Option.some.injEq] at hs
    subst hs
    exact hd
  | addSyncFileItemToActivityList a =>
    simp only [step, Option.some.injEq] at hs
    subst hs
    exact hd
  | clearNotifications =>
    simp only [step, Option.some.injEq] at hs
    subst hs
    exact hd
  | removeActivityFromActivityList a =>
    simp only [step, Option.some.injEq] at hs
    subst hs
    have hf := removeActivity_frame lt eq w.model a
    simp only [hf.2.2.1, hf.2.2.2.2]
    exact hd
  | removeActivityFromActivityListRow row =>
    simp only [step, removeActivityFromActivityListRow] at hs
    split at hs
    · simp at hs
    · rename_i a ha
      simp at hs
      subst hs
      have hf := removeActivity_frame lt eq w.model a
      simp only [combine_accountState, combine_doneFetching, hf.2.2.1, hf.2.2.2.2]
      exact hd
  | accountStateChanged now =>
    simp only [step, Option.some.injEq] at hs
    subst hs
    rcases hd with hd | hd
    · left; simp [hd]
    · right; exact hd

theorem run_keeps_fetching (lt eq : Activity → Activity → Bool) (ops : List Op) :
    ∀ (w w1 : World), (∀ op ∈ ops, op.isReply = false ∧ op.isRemoveAccount = false) →
      run lt eq w ops = some w1 → w.model._currentlyFetching = true →
      w1.model._currentlyFetching = true := by
  induction ops with
  | nil =>
    intro w w1 _ hr hcf
    simp only [run, Option.some.injEq] at hr
    subst hr
    exact hcf
  | cons op ops ih =>
    intro w w1 hops hr hcf
    simp only [run] at hr
    cases hs : step lt eq w op with
    | none => simp [hs] at hr
    | some w2 =>
      simp only [hs] at hr
      have hop := hops op (List.mem_cons_self _ _)
      exact ih w2 w1 (fun o ho => hops o (List.mem_cons_of_mem _ ho)) hr
        (step_keeps_fetching lt eq w w2 op hs hop.1 hop.2 hcf)

theorem run_keeps_done (lt eq : Activity → Activity → Bool) (ops : List Op) :
    ∀ (w w1 : World), (∀ op ∈ ops, op.isRefresh = false ∧ op.isRemoveAccount = false) →
      run lt eq w ops = some w1 →
      (w.model._accountState = none ∨ w.model._doneFetching = true) →
      (w1.model._accountState = none ∨ w1.model._doneFetching = true) := by
  induction ops with
  | nil =>
    intro w w1 _ hr hd
    simp only [run, Option.some.injEq] at hr
    subst hr
    exact hd
  | cons op ops ih =>
    intro w w1 hops hr hd
    simp only [run] at hr
    cases hs : step lt eq w op with
    | none => simp [hs] at hr
    | some w2 =>
      simp only [hs] at hr
      have hop := hops op (List.mem_cons_self _ _)
      exact ih w2 w1 (fun o ho => hops o (List.mem_cons_of_mem _ ho)) hr
        (step_keeps_done lt eq w w2 op hs hop.1 hop.2 hd)

theorem canFetchMore_false_of_fetching (m : ActivityListModel)
    (h : m._currentlyFetching = true) : canFetchMore m = false := by
  cases hc : canFetchMore m with
  | false => rfl
  | true =>
    rw [canFetchMore_iff] at hc
    rw [hc.2.2] at h
    exact absurd h (by decide)

theorem canFetchMore_false_of_done (m : ActivityListModel)
    (h : m._accountState = none ∨ m._doneFetching = true) : canFetchMore m = false := by
  cases hc : canFetchMore m with
  | false => rfl
  | true =>
    rw [canFetchMore_iff] at hc
    obtain ⟨⟨ast, hast, -⟩, hdf, -⟩ := hc
    rcases h with h | h
    · rw [hast] at h; cases h
    · rw [hdf] at h; exact absurd h (by decide)

/-- C4, refuted as stated: from a freshly constructed model on a connected
account, `slotRefreshActivity` starts a job and `slotRemoveAccount` follows; the
reply has not been handled (one fetch is in flight), yet `canFetchMore` returns
true. -/
theorem C4_canFetchMore_true_while_in_flight :
    (run newestFirst sameEntry (World.fresh (some onlineAccount))
        [.slotRefreshActivity, .slotRemoveAccount]).map
        (fun w => (w.model.startedJobs, w.delivered, inFlight w, canFetchMore w.model)) =
      some ([{ start := 0, count := 100 }], 0, 1, true) := by
  rfl

/-- C4, amended: `canFetchMore` returns true if and only if the account state is
present and connected, fetching has not been reported done, and no fetch is
currently in progress. It returns false from the moment `startFetchJob` starts a
job until `slotActivitiesReceived` handles a reply or `slotRemoveAccount` is
called, and false after a reply with zero activities until the next
`slotRefreshActivity` or `slotRemoveAccount`. -/
theorem C4_canFetchMore (lt eq : Activity → Activity → Bool) :
    (∀ m : ActivityListModel, canFetchMore m = true ↔
        (∃ ast, m._accountState = some ast ∧ ast.isConnected = true)
          ∧ m._doneFetching = false ∧ m._currentlyFetching = false)
      ∧ (∀ (m m1 : ActivityListModel) (delivered : Nat) (ops : List Op) (w : World),
          startFetchJob m = some m1 → m1.startedJobs ≠ m.startedJobs →
          (∀ op ∈ ops, op.isReply = false ∧ op.isRemoveAccount = false) →
          run lt eq { model := m1, delivered := delivered } ops = some w →
          canFetchMore w.model = false)
      ∧ (∀ (m : ActivityListModel) (statusCode : Int) (delivered : Nat) (ops : List Op)
          (w : World),
          (∀ op ∈ ops, op.isRefresh = false ∧ op.isRemoveAccount = false) →
          run lt eq { model := slotActivitiesReceived lt m [] statusCode,
                      delivered := delivered } ops = some w →
          canFetchMore w.model = false) := by
  refine ⟨canFetchMore_iff, ?_, ?_⟩
  · intro m m1 delivered ops w hstart hjob hops hr
    apply canFetchMore_false_of_fetching
    apply run_keeps_fetching lt eq ops _ w hops hr
    unfold startFetchJob at hstart
    cases hast : m._accountState with
    | none => simp [hast] at hstart
    | some ast =>
      simp only [hast] at hstart
      split_ifs at hstart <;> simp at hstart <;> subst hstart
      · exact absurd rfl hjob
      · rfl
  · intro m statusCode delivered ops w hops hr
    apply canFetchMore_false_of_done
    apply run_keeps_done lt eq ops _ w hops hr
    cases hast : m._accountState with
    | none =>
      rw [slotActivitiesReceived_noAccount lt _ hast]
      exact Or.inl hast
    | some ast =>
      rw [slotActivitiesReceived_eq lt _ ast hast]
      right
      simp

/-- C4, amended, at a model that can fetch: after `startFetchJob` and two further
calls `canFetchMore` is false, and so it is after an empty reply. -/
theorem C4_canFetchMore_witness :
    canFetchMore errorThenNotification = true
      ∧ startFetchJob errorThenNotification = some fetchingModel
      ∧ (∃ w, run newestFirst sameEntry { model := fetchingModel, delivered := 0 }
              [.addErrorToActivityList oldError, .fetchMore] = some w
          ∧ canFetchMore w.model = false)
      ∧ canFetchMore (slotActivitiesReceived newestFirst errorThenNotification [] 200)
          = false := by
  have h := C4_canFetchMore newestFirst sameEntry
  have h2 : ∃ w, run newestFirst sameEntry { model := fetchingModel, delivered := 0 }
      [.addErrorToActivityList oldError, .fetchMore] = some w := ⟨_, rfl⟩
  obtain ⟨w, hw⟩ := h2
  refine ⟨(h.1 _).2 ⟨⟨onlineAccount, rfl, rfl⟩, rfl, rfl⟩, rfl, ⟨w, hw, ?_⟩, ?_⟩
  · refine h.2.1 errorThenNotification fetchingModel 0 _ w rfl (by decide) ?_ hw
    intro op hop
    simp only [List.mem_cons, List.mem_singleton, List.not_mem_nil, or_false] at hop
    rcases hop with rfl | rfl <;> exact ⟨rfl, rfl⟩
  · exact h.2.2 errorThenNotification 200 0 [] _ (by simp) rfl

/-! ## C9: the paging invariant -/

theorem removeAtIfFound_mem (l : List Activity) (index : Option Nat) (a : Activity)
    (h : a ∈ removeAtIfFound l index) : a ∈ l := by
  cases index with
  | none => exact h
  | some i => exact List.mem_of_mem_eraseIdx h

theorem removeAtIfFound_length_le (l : List Activity) (index : Option Nat) :
    (removeAtIfFound l index).length ≤ l.length := by
  cases index with
  | none => exact Nat.le_refl _
  | some i => exact List.length_eraseIdx_le l i

theorem stdSort_mem (lt : Activity → Activity → Bool) (l : List Activity) (a : Activity) :
    a ∈ stdSort lt l ↔ a ∈ l :=
  (stdSort_perm lt l).mem_iff

theorem removeActivity_activityLists (lt eq : Activity → Activity → Bool)
    (m : ActivityListModel) (a : Activity) :
    (∀ x ∈ (removeActivityFromActivityList lt eq m a)._activityLists, x ∈ m._activityLists)
      ∧ (removeActivityFromActivityList lt eq m a)._activityLists.length
          ≤ m._activityLists.length := by
  unfold removeActivityFromActivityList
  dsimp only
  split_ifs <;>
    simp only [combine_activityLists, stdSort_mem, stdSort_length, le_refl, imp_self,
      implies_true, and_self] <;>
    exact ⟨fun x hx => removeAtIfFound_mem _ _ x hx, removeAtIfFound_length_le _ _⟩

/-- The paging invariant with the count `n` of received activities made
explicit: the list is no longer than `n`, and the offset is `n` as an `int`. -/
theorem step_paging (lt eq : Activity → Activity → Bool) (w w1 : World) (op : Op) (n : Nat)
    (hs : step lt eq w op = some w1)
    (hinv : (w.model._accountState = none → w.model.startedJobs = [])
      ∧ w.model._activityLists.length ≤ n
      ∧ (∀ a ∈ w.model._activityLists, a._type = ActivityKind.ActivityType)
      ∧ w.model._currentItem = wrapInt n) :
    (w1.model._accountState = none → w1.model.startedJobs = [])
      ∧ w1.model._activityLists.length ≤ receivedSinceReset n [op]
      ∧ (∀ a ∈ w1.model._activityLists, a._type = ActivityKind.ActivityType)
      ∧ w1.model._currentItem = wrapInt (receivedSinceReset n [op]) := by
  obtain ⟨h1, h2, h3, h4⟩ := hinv
  cases op with
  | fetchMore =>
    simp only [step, fetchMore_eq] at hs
    cases hast : w.model._accountState with
    | none => simp [hast] at hs
    | some ast =>
      simp only [hast] at hs
      split_ifs at hs <;> simp at hs <;> subst hs <;>
        simp only [receivedSinceReset, combine_accountState, combine_startedJobs,
          combine_activityLists, combine_currentItem, stdSort_length, stdSort_mem] <;>
        exact ⟨by simp [hast], h2, h3, h4⟩
  | slotRefreshActivity =>
    simp only [step, slotRefreshActivity_eq] at hs
    cases hast : w.model._accountState with
    | none => simp [hast] at hs
    | some ast =>
      simp only [hast] at hs
      split_ifs at hs <;> simp at hs <;> subst hs <;>
        simp [receivedSinceReset, stdSort_nil, hast, wrapInt]
  | slotActivitiesReceived activities statusCode =>
    simp only [step] at hs
    split_ifs at hs with h0
    simp at hs
    subst hs
    cases hast : w.model._accountState with
    | none =>
      have := h1 hast
      simp [inFlight, this] at h0
    | some ast =>
      rw [slotActivitiesReceived_eq lt _ ast hast]
      simp only [combine_accountState, combine_startedJobs, combine_activityLists,
        combine_currentItem, stdSort_length, stdSort_mem, receivedSinceReset,
        List.length_append, List.length_map, List.mem_append, List.mem_map, hast]
      refine ⟨by simp, by omega, ?_, ?_⟩
      · rintro a (ha | ⟨j, -, rfl⟩)
        · exact h3 a ha
        · rfl
      · rw [h4, wrapInt_add]
        push_cast
        rfl
  | slotRemoveAccount =>
    simp only [step, Option.some.injEq] at hs
    subst hs
    simp [slotRemoveAccount, receivedSinceReset, wrapInt]
    exact h1
  | addErrorToActivityList a =>
    simp only [step, Option.some.injEq] at hs
    subst hs
    simp only [addErrorToActivityList, receivedSinceReset, combine_accountState,
      combine_startedJobs, combine_activityLists, combine_currentItem, stdSort_length,
      stdSort_mem]
    exact ⟨h1, h2, h3, h4⟩
  | addIgnoredFileToList a =>
    simp only [step, Option.some.injEq] at hs
    subst hs
    have hf := addIgnoredFile_frame w.model a
    simp only [hf.1, hf.2.2.2.1, hf.2.2.2.2.1, hf.2.2.2.2.2, receivedSinceReset]
    exact ⟨h1, h2, h3, h4⟩
  | addNotificationToActivityList a =>
    simp only [step, Option.some.injEq] at hs
    subst hs
    simp only [addNotificationToActivityList, receivedSinceReset, combine_accountState,
      combine_startedJobs, combine_activityLists, combine_currentItem, stdSort_length,
      stdSort_mem]
    exact ⟨h1, h2, h3, h4⟩
  | addSyncFileItemToActivityList a =>
    simp only [step, Option.some.injEq] at hs
    subst hs
    simp only [addSyncFileItemToActivityList, receivedSinceReset, combine_accountState,
      combine_startedJobs, combine_activityLists, combine_currentItem, stdSort_length,
      stdSort_mem]
    exact ⟨h1, h2, h3, h4⟩
  | clearNotifications =>
    simp only [step, Option.some.injEq] at hs
    subst hs
    simp only [clearNotifications, receivedSinceReset, combine_accountState,
      combine_startedJobs, combine_activityLists, combine_currentItem, stdSort_length,
      stdSort_mem]
    exact ⟨h1, h2, h3, h4⟩
  | removeActivityFromActivityList a =>
    simp only [step, Option.some.injEq] at hs
    subst hs
    have hf := removeActivity_frame lt eq w.model a
    have hl := removeActivity_activityLists lt eq w.model a
    simp only [hf.1, hf.2.2.2.1, hf.2.2.2.2, receivedSinceReset]
    exact ⟨h1, Nat.le_trans hl.2 h2, fun x hx => h3 x (hl.1 x hx), h4⟩
  | removeActivityFromActivityListRow row =>
    simp only [step, removeActivityFromActivityListRow] at hs
    split at hs
    · simp at hs
    · rename_i a ha
      simp at hs
      subst hs
      have hf := removeActivity_frame lt eq w.model a
      have hl := removeActivity_activityLists lt eq w.model a
      simp only [combine_accountState, combine_startedJobs, combine_activityLists,
        combine_currentItem, stdSort_length, stdSort_mem, hf.1, hf.2.2.2.1, hf.2.2.2.2,
        receivedSinceReset]
      exact ⟨h1, Nat.le_trans hl.2 h2, fun x hx => h3 x (hl.1 x hx), h4⟩
  | accountStateChanged now =>
    simp only [step, Option.some.injEq] at hs
    subst hs
    simp only [receivedSinceReset]
    refine ⟨?_, h2, h3, h4⟩
    intro hnone
    apply h1
    cases hast : w.model._accountState with
    | none => rfl
    | some ast => simp [hast] at hnone

theorem receivedSinceReset_cons (n : Nat) (op : Op) (ops : List Op) :
    receivedSinceReset n (op :: ops) = receivedSinceReset (receivedSinceReset n [op]) ops := by
  cases op <;> rfl

theorem run_paging (lt eq : Activity → Activity → Bool) (ops : List Op) :
    ∀ (w w1 : World) (n : Nat), run lt eq w ops = some w1 →
      ((w.model._accountState = none → w.model.startedJobs = [])
        ∧ w.model._activityLists.length ≤ n
        ∧ (∀ a ∈ w.model._activityLists, a._type = ActivityKind.ActivityType)
        ∧ w.model._currentItem = wrapInt n) →
      (w1.model._accountState = none → w1.model.startedJobs = [])
        ∧ w1.model._activityLists.length ≤ receivedSinceReset n ops
        ∧ (∀ a ∈ w1.model._activityLists, a._type = ActivityKind.ActivityType)
        ∧ w1.model._currentItem = wrapInt (receivedSinceReset n ops) := by
  induction ops with
  | nil =>
    intro w w1 n hr hinv
    simp only [run, Option.some.injEq] at hr
    subst hr
    exact hinv
  | cons op ops ih =>
    intro w w1 n hr hinv
    simp only [run] at hr
    cases hs : step lt eq w op with
    | none => simp [hs] at hr
    | some w2 =>
      simp only [hs] at hr
      rw [receivedSinceReset_cons]
      exact ih w2 w1 _ hr (step_paging lt eq w w2 op n hs hinv)

theorem fresh_paging (lt eq : Activity → Activity → Bool)
    (accountState : Option AccountState) (ops : List Op) (w : World)
    (hr : run lt eq (World.fresh accountState) ops = some w) :
    w.model._activityLists.length ≤ receivedSinceReset 0 ops
      ∧ (∀ a ∈ w.model._activityLists, a._type = ActivityKind.ActivityType)
      ∧ w.model._currentItem = wrapInt (receivedSinceReset 0 ops) :=
  (run_paging lt eq ops (World.fresh accountState) w 0 hr
    ⟨fun _ => rfl, by simp [World.fresh, ActivityListModel.fresh],
     by simp [World.fresh, ActivityListModel.fresh], rfl⟩).2

theorem step_fetchMore_online (lt eq : Activity → Activity → Bool) (w : World)
    (hacc : w.model._accountState = some onlineAccount)
    (hd : w.delivered ≤ w.model.startedJobs.length) :
    ∃ w1, step lt eq w .fetchMore = some w1
      ∧ w1.model._accountState = some onlineAccount
      ∧ w1.delivered < w1.model.startedJobs.length := by
  refine ⟨{ w with model := { w.model with
      startedJobs := w.model.startedJobs ++ [{ start := w.model._currentItem, count := 100 }]
      _currentlyFetching := true } }, ?_, hacc, ?_⟩
  · simp [step, fetchMore_eq, hacc, onlineAccount]
  · simp only [List.length_append, List.length_singleton]
    omega

theorem step_reply_online (lt eq : Activity → Activity → Bool) (w : World)
    (activities : List JsonActivity) (statusCode : Int)
    (hacc : w.model._accountState = some onlineAccount)
    (hd : w.delivered < w.model.startedJobs.length) :
    ∃ w1, step lt eq w (.slotActivitiesReceived activities statusCode) = some w1
      ∧ w1.model._accountState = some onlineAccount
      ∧ w1.delivered ≤ w1.model.startedJobs.length := by
  have hin : inFlight w ≠ 0 := by
    unfold inFlight
    omega
  refine ⟨{ model := slotActivitiesReceived lt w.model activities statusCode
            delivered := w.delivered + 1 }, ?_, ?_, ?_⟩
  · simp only [step, if_neg hin]
  · rw [slotActivitiesReceived_eq lt _ onlineAccount hacc]
    exact hacc
  · rw [slotActivitiesReceived_eq lt _ onlineAccount hacc]
    simp only [combine_startedJobs]
    omega

/-- The pages of `manyPages k` can all be fetched on a connected account. -/
theorem manyPages_run (lt eq : Activity → Activity → Bool) (k : Nat) :
    ∀ w : World, w.model._accountState = some onlineAccount →
      w.delivered ≤ w.model.startedJobs.length →
      ∃ w1, run lt eq w (manyPages k) = some w1
        ∧ w1.model._accountState = some onlineAccount
        ∧ w1.delivered ≤ w1.model.startedJobs.length := by
  induction k with
  | zero =>
    intro w hacc hd
    exact ⟨w, rfl, hacc, hd⟩
  | succ k ih =>
    intro w hacc hd
    obtain ⟨w1, hw1, hacc1, hd1⟩ := step_fetchMore_online lt eq w hacc hd
    obtain ⟨w2, hw2, hacc2, hd2⟩ := step_reply_online lt eq w1 [replyItem] 200 hacc1 hd1
    obtain ⟨w3, hw3, hacc3, hd3⟩ := ih w2 hacc2 hd2
    exact ⟨w3, by simp only [manyPages, run, hw1, hw2, hw3], hacc3, hd3⟩

theorem manyPages_received (n k : Nat) : receivedSinceReset n (manyPages k) = n + k := by
  induction k generalizing n with
  | zero => rfl
  | succ k ih =>
    simp only [manyPages, receivedSinceReset, List.length_singleton]
    rw [ih]
    omega

/-- C5, refuted as stated: at the paging offset 2147483647, the largest `int`, a
reply carrying one activity does not raise the offset by one: the `int` wraps to
-2147483648. That offset is reached from a freshly constructed model on a
connected account by 2147483647 pages of one activity each. -/
theorem C5_offset_wraps :
    atIntMax._currentItem = 2147483647
      ∧ (slotActivitiesReceived newestFirst atIntMax [replyItem] 200)._currentItem
          = -2147483648
      ∧ ∃ w, run newestFirst sameEntry (World.fresh (some onlineAccount))
            (manyPages 2147483647) = some w
          ∧ w.model._accountState = some onlineAccount
          ∧ w.model._currentItem = 2147483647
          ∧ (slotActivitiesReceived newestFirst w.model [replyItem] 200)._currentItem
              = -2147483648 := by
  refine ⟨rfl, by decide, ?_⟩
  obtain ⟨w, hw, hacc, -⟩ := manyPages_run newestFirst sameEntry 2147483647
    (World.fresh (some onlineAccount)) rfl (Nat.le_refl _)
  have hp := fresh_paging newestFirst sameEntry (some onlineAccount) _ w hw
  have hcur : w.model._currentItem = 2147483647 := by
    rw [hp.2.2, manyPages_received]
    decide
  refine ⟨w, hw, hacc, hcur, ?_⟩
  rw [slotActivitiesReceived_eq newestFirst w.model onlineAccount hacc]
  simp only [combine_currentItem, hcur]
  decide

/-- C5, amended: with an account state present, a reply carrying `n` activities
raises the paging offset by exactly `n` provided the sum is representable as an
`int`, clears the currently-fetching flag, sets the done-fetching flag when
`n = 0` and leaves it alone when `n > 0`, and adds to the fetched-activity list
exactly the `n` entries built from the reply, each of type `ActivityType` with
the reply's id, subject, message, file, link and date and the account's display
name; a job started next by `startFetchJob` asks for `start` = the new offset
and `count` = 100. -/
theorem C5_pagination_step (lt : Activity → Activity → Bool) (m : ActivityListModel)
    (ast : AccountState) (hast : m._accountState = some ast)
    (activities : List JsonActivity) (statusCode : Int) :
    (InIntRange (m._currentItem + activities.length) →
        (slotActivitiesReceived lt m activities statusCode)._currentItem
          = m._currentItem + activities.length)
      ∧ (slotActivitiesReceived lt m activities statusCode)._currentlyFetching = false
      ∧ (activities.length = 0 →
          (slotActivitiesReceived lt m activities statusCode)._doneFetching = true)
      ∧ (0 < activities.length →
          (slotActivitiesReceived lt m activities statusCode)._doneFetching = m._doneFetching)
      ∧ (slotActivitiesReceived lt m activities statusCode)._activityLists
          = stdSort lt (m._activityLists ++ activities.map (activityOfJson ast))
      ∧ ((slotActivitiesReceived lt m activities statusCode)._activityLists).Perm
          (m._activityLists ++ activities.map (activityOfJson ast))
      ∧ (slotActivitiesReceived lt m activities statusCode)._activityLists.length
          = m._activityLists.length + activities.length
      ∧ (activities.map (activityOfJson ast)).length = activities.length
      ∧ (∀ json : JsonActivity,
          (activityOfJson ast json)._type = ActivityKind.ActivityType
            ∧ (activityOfJson ast json)._accName = ast.displayName
            ∧ (activityOfJson ast json)._id = json.id
            ∧ (activityOfJson ast json)._subject = json.subject
            ∧ (activityOfJson ast json)._message = json.message
            ∧ (activityOfJson ast json)._file = json.file
            ∧ (activityOfJson ast json)._link = json.link
            ∧ (activityOfJson ast json)._dateTime = json.date)
      ∧ (ast.isConnected = true →
          ∃ m2, startFetchJob (slotActivitiesReceived lt m activities statusCode) = some m2
            ∧ m2.startedJobs =
                (slotActivitiesReceived lt m activities statusCode).startedJobs ++
                  [{ start := (slotActivitiesReceived lt m activities statusCode)._currentItem,
                     count := 100 }])
      ∧ (ast.isConnected = false →
          startFetchJob (slotActivitiesReceived lt m activities statusCode)
            = some (slotActivitiesReceived lt m activities statusCode)) := by
  rw [slotActivitiesReceived_eq lt m ast hast]
  refine ⟨?_, rfl, ?_, ?_, ?_, ?_, ?_, ?_, ?_, ?_, ?_⟩
  · intro hrange
    exact wrapInt_of_range _ hrange
  · intro h; simp [h]
  · intro h
    have : activities.length ≠ 0 := by omega
    simp [this]
  · simp
  · simp only [combine_activityLists]
    exact stdSort_perm _ _
  · simp [stdSort_length]
  · simp
  · intro json
    exact ⟨rfl, rfl, rfl, rfl, rfl, rfl, rfl, rfl⟩
  · intro hc
    simp [startFetchJob, hast, hc]
  · intro hc
    simp [startFetchJob, hast, hc]

/-- C5, amended, on a model with an empty feed and a reply with one activity. -/
theorem C5_pagination_step_witness :
    (slotActivitiesReceived newestFirst fetchingModel [replyItem] 200)._currentItem = 1
      ∧ (slotActivitiesReceived newestFirst fetchingModel [replyItem] 200)._currentlyFetching
          = false
      ∧ (slotActivitiesReceived newestFirst fetchingModel [replyItem] 200)._activityLists.length
          = 1 := by
  have h := C5_pagination_step newestFirst fetchingModel onlineAccount rfl [replyItem] 200
  exact ⟨h.1 (by decide), h.2.1, h.2.2.2.2.2.2.1⟩

/-! ## C6: the icon role -/

/-- C6: for every valid row whose account resolves, `data` for the icon role
returns the icon the table `specIcon` gives for the entry's type and status, and
so depends on nothing else. -/
theorem C6_icon_role (env : Collaborators) (m : ActivityListModel) (row : Nat)
    (a : Activity) (ast : AccountState) (hrow : m._finalList[row]? = some a)
    (hacc : env.account a._accName = some ast) :
    data env m (some row) DataRole.ActionIconRole
      = some (QVariant.string (specIcon a._type a._status)) := by
  unfold data
  simp only [hrow, hacc]
  cases ht : a._type <;> cases hst : a._status <;> simp [specIcon]

/-- C6 at the model with one error and one notification: the error row gets the
state-error icon and the notification row the bell. -/
theorem C6_icon_role_witness :
    data plainCollaborators (combineActivityLists newestFirst errorThenNotification) (some 0)
        DataRole.ActionIconRole
        = some (QVariant.string "qrc:///client/theme/black/state-error.svg")
      ∧ data plainCollaborators (combineActivityLists newestFirst errorThenNotification)
          (some 1) DataRole.ActionIconRole
        = some (QVariant.string "qrc:///client/theme/black/bell.svg") :=
  ⟨C6_icon_role plainCollaborators (combineActivityLists newestFirst errorThenNotification) 0
      oldError onlineAccount rfl rfl,
   C6_icon_role plainCollaborators (combineActivityLists newestFirst errorThenNotification) 1
      newNotification onlineAccount rfl rfl⟩

/-! ## C7: the ignored-files notice -/

/-- C7, the code at the failing input: after the files `a.txt` and `b.txt`, a
second report of `b.txt` is not recognised as a duplicate, because only the
first file was ever put on the list the check searches; the notice's message
gets `b.txt` appended a second time. -/
theorem C7_duplicate_appended_again :
    (addIgnoredFileToList (addIgnoredFileToList (ActivityListModel.fresh none) ignoredA)
        ignoredB)._listOfIgnoredFiles = [ignoredA]
      ∧ (addIgnoredFileToList (addIgnoredFileToList (ActivityListModel.fresh none) ignoredA)
        ignoredB)._notificationIgnoredFiles._message = ", b.txt"
      ∧ (addIgnoredFileToList
          (addIgnoredFileToList (addIgnoredFileToList (ActivityListModel.fresh none) ignoredA)
            ignoredB) ignoredB)._notificationIgnoredFiles._message = ", b.txt, b.txt" := by
  refine ⟨by rfl, by decide, by decide⟩

/-! ## C8: dismissing an entry -/

theorem removeAt_indexOf (eq : Activity → Activity → Bool) (t : Activity) :
    ∀ l : List Activity,
      removeAtIfFound l (indexOf eq l t) = l.eraseP (fun x => eq x t) := by
  intro l
  induction l with
  | nil => rfl
  | cons x xs ih =>
    unfold indexOf
    by_cases hx : eq x t = true
    · simp [hx, removeAtIfFound]
    · simp only [hx, if_false, Bool.false_eq_true]
      rw [List.eraseP_cons_of_neg (by simpa using hx)]
      rw [← ih]
      cases indexOf eq xs t with
      | none => rfl
      | some i => rfl

theorem indexOf_isSome (eq : Activity → Activity → Bool) (t : Activity) :
    ∀ l : List Activity, (indexOf eq l t).isSome = true ↔ ∃ x ∈ l, eq x t = true := by
  intro l
  induction l with
  | nil => simp [indexOf]
  | cons x xs ih =>
    unfold indexOf
    by_cases hx : eq x t = true
    · simp [hx]
    · simp only [hx, if_false, Bool.false_eq_true, Option.isSome_map', ih, List.mem_cons,
        exists_eq_or_imp, false_or]

theorem sourceCount_combine (lt : Activity → Activity → Bool) (m : ActivityListModel) :
    rowCount (combineActivityLists lt m) = sourceCount m
      ∧ sourceCount (combineActivityLists lt m) = sourceCount m := by
  rw [combine_eq]
  simp [rowCount, sourceCount, noticeSegment, stdSort_length]
  omega

theorem indexOf_none (eq : Activity → Activity → Bool) (t : Activity) (l : List Activity)
    (h : ∀ x ∈ l, eq x t = false) : indexOf eq l t = none := by
  cases hi : indexOf eq l t with
  | none => rfl
  | some i =>
    have : (indexOf eq l t).isSome = true := by rw [hi]; rfl
    obtain ⟨x, hx, hxt⟩ := (indexOf_isSome eq t l).mp this
    rw [h x hx] at hxt
    exact absurd hxt (by decide)

theorem chosenList_activity (m : ActivityListModel) (a : Activity)
    (h : a._type = ActivityKind.ActivityType) : chosenList m a = m._activityLists := by
  simp [chosenList, h]

theorem chosenList_notification (m : ActivityListModel) (a : Activity)
    (h : a._type = ActivityKind.NotificationType) :
    chosenList m a = m._notificationLists := by
  simp [chosenList, h]

theorem chosenList_other (m : ActivityListModel) (a : Activity)
    (h1 : a._type ≠ ActivityKind.ActivityType) (h2 : a._type ≠ ActivityKind.NotificationType) :
    chosenList m a = m._notificationErrorsLists := by
  unfold chosenList
  cases ht : a._type <;> simp_all

theorem remove_not_found (lt eq : Activity → Activity → Bool) (m : ActivityListModel)
    (a : Activity) (h : ∀ x ∈ chosenList m a, eq x a = false) :
    removeActivityFromActivityList lt eq m a = m := by
  unfold removeActivityFromActivityList
  dsimp only
  by_cases h1 : a._type = ActivityKind.ActivityType
  · rw [chosenList_activity m a h1] at h
    rw [if_pos h1, indexOf_none eq a _ h]
    rfl
  · by_cases h2 : a._type = ActivityKind.NotificationType
    · rw [chosenList_notification m a h2] at h
      rw [if_neg h1, if_pos h2, indexOf_none eq a _ h]
      rfl
    · rw [chosenList_other m a h1 h2] at h
      rw [if_neg h1, if_neg h2, indexOf_none eq a _ h]
      rfl

theorem remove_found (lt eq : Activity → Activity → Bool) (m : ActivityListModel)
    (a : Activity) (h : ∃ x ∈ chosenList m a, eq x a = true) :
    removeActivityFromActivityList lt eq m a =
      combineActivityLists lt
        (if a._type = ActivityKind.ActivityType then
          { m with _activityLists := m._activityLists.eraseP (fun x => eq x a) }
        else if a._type = ActivityKind.NotificationType then
          { m with _notificationLists := m._notificationLists.eraseP (fun x => eq x a) }
        else
          { m with
            _notificationErrorsLists :=
              m._notificationErrorsLists.eraseP (fun x => eq x a) }) := by
  unfold removeActivityFromActivityList
  dsimp only
  by_cases h1 : a._type = ActivityKind.ActivityType
  · rw [chosenList_activity m a h1] at h
    rw [if_pos h1, if_pos h1]
    dsimp only
    rw [if_pos ((indexOf_isSome eq a _).mpr h), removeAt_indexOf]
  · by_cases h2 : a._type = ActivityKind.NotificationType
    · rw [chosenList_notification m a h2] at h
      rw [if_neg h1, if_pos h2, if_neg h1, if_pos h2]
      dsimp only
      rw [if_pos ((indexOf_isSome eq a _).mpr h), removeAt_indexOf]
    · rw [chosenList_other m a h1 h2] at h
      rw [if_neg h1, if_neg h2, if_neg h1, if_neg h2]
      dsimp only
      rw [if_pos ((indexOf_isSome eq a _).mpr h), removeAt_indexOf]

theorem chosenList_cases (eq : Activity → Activity → Bool) (m : ActivityListModel)
    (a : Activity) :
    (∃ x ∈ chosenList m a, eq x a = true) ∨ (∀ x ∈ chosenList m a, eq x a = false) := by
  by_cases h : ∃ x ∈ chosenList m a, eq x a = true
  · exact Or.inl h
  · right
    intro x hx
    cases hxa : eq x a with
    | false => rfl
    | true => exact absurd ⟨x, hx, hxa⟩ h

theorem eraseP_length_succ (eq : Activity → Activity → Bool) (a : Activity)
    (l : List Activity) (h : ∃ x ∈ l, eq x a = true) :
    (l.eraseP (fun x => eq x a)).length + 1 = l.length := by
  obtain ⟨x, hx, hxa⟩ := h
  have h1 := List.length_eraseP_of_mem (p := fun x => eq x a) hx hxa
  have h2 := List.length_pos_of_mem hx
  omega

theorem eraseP_not_found (eq : Activity → Activity → Bool) (a : Activity)
    (l : List Activity) (h : ∀ x ∈ l, eq x a = false) :
    l.eraseP (fun x => eq x a) = l :=
  List.eraseP_of_forall_not (fun x hx => by simp [h x hx])

theorem combine_sorted (lt : Activity → Activity → Bool) (hlt : StrictWeakOrder lt)
    (m : ActivityListModel) : SourceListsSorted lt (combineActivityLists lt m) := by
  unfold SourceListsSorted
  simp only [combine_notificationErrorsLists, combine_notificationLists,
    combine_syncFileItemLists, combine_activityLists]
  exact ⟨stdSort_sorted hlt _, stdSort_sorted hlt _, stdSort_sorted hlt _,
    stdSort_sorted hlt _⟩

theorem combine_upToDate (lt : Activity → Activity → Bool) (m : ActivityListModel) :
    FinalListUpToDate (combineActivityLists lt m) := by
  unfold FinalListUpToDate
  rw [combine_eq]
  rfl

/-- C10, refuted as stated: on a model constructed without an account state the
call dereferences the null `_accountState` in `canFetchActivities` and yields
no state at all. -/
theorem C10_refresh_needs_account :
    (ActivityListModel.fresh none)._accountState = none
      ∧ canFetchMore (ActivityListModel.fresh none) = false
      ∧ slotRefreshActivity newestFirst (ActivityListModel.fresh none) = none := by
  refine ⟨rfl, rfl, rfl⟩

/-- C10, amended: for every model state with an account state present,
`slotRefreshActivity` empties the fetched-activity list, sets the paging offset
to 0, leaves the ignored-files notice unchanged and leaves the error,
notification and sync-file-item lists with exactly their entries. When
activities cannot be fetched (account not connected or no activities
capability) it sets done-fetching, starts no job, and the final list becomes the
combination of these local lists, each sorted again in place, with no fetched
activity in it. When they can be fetched it starts one job asking for
`start` = 0 and `count` = 100, with done-fetching false, and leaves the error,
notification and sync-file-item lists as they are. -/
theorem C10_refresh (lt : Activity → Activity → Bool) (m : ActivityListModel)
    (ast : AccountState) (hast : m._accountState = some ast) :
    ∃ m1, slotRefreshActivity lt m = some m1
      ∧ m1._activityLists = [] ∧ m1._currentItem = 0
      ∧ m1._listOfIgnoredFiles = m._listOfIgnoredFiles
      ∧ m1._notificationIgnoredFiles = m._notificationIgnoredFiles
      ∧ m1._notificationErrorsLists.Perm m._notificationErrorsLists
      ∧ m1._notificationLists.Perm m._notificationLists
      ∧ m1._syncFileItemLists.Perm m._syncFileItemLists
      ∧ ((ast.isConnected && ast.hasActivities) = false →
          m1._doneFetching = true ∧ m1.startedJobs = m.startedJobs
            ∧ (StrictWeakOrder lt →
                SortedUnder lt m1._notificationErrorsLists
                  ∧ SortedUnder lt m1._notificationLists
                  ∧ SortedUnder lt m1._syncFileItemLists)
            ∧ m1._finalList = m1._notificationErrorsLists ++ noticeSegment m ++
                m1._notificationLists ++ m1._syncFileItemLists)
      ∧ ((ast.isConnected && ast.hasActivities) = true →
          m1._doneFetching = false
            ∧ m1.startedJobs = m.startedJobs ++ [{ start := 0, count := 100 }]
            ∧ m1._notificationErrorsLists = m._notificationErrorsLists
            ∧ m1._notificationLists = m._notificationLists
            ∧ m1._syncFileItemLists = m._syncFileItemLists) := by
  rw [slotRefreshActivity_eq, hast]
  dsimp only
  cases hc : (ast.isConnected && ast.hasActivities) with
  | true =>
    rw [if_pos rfl]
    exact ⟨_, rfl, rfl, rfl, rfl, rfl, List.Perm.refl _, List.Perm.refl _, List.Perm.refl _,
      fun h => absurd h (by decide), fun _ => ⟨rfl, rfl, rfl, rfl, rfl⟩⟩
  | false =>
    rw [if_neg (by decide)]
    refine ⟨_, rfl, ?_, rfl, rfl, rfl, ?_, ?_, ?_, fun _ => ?_,
      fun h => absurd h (by decide)⟩
    · simp [stdSort_nil]
    · simp only [combine_notificationErrorsLists]
      exact stdSort_perm _ _
    · simp only [combine_notificationLists]
      exact stdSort_perm _ _
    · simp only [combine_syncFileItemLists]
      exact stdSort_perm _ _
    · refine ⟨rfl, rfl, ?_, ?_⟩
      · intro hlt
        simp only [combine_notificationErrorsLists, combine_notificationLists,
          combine_syncFileItemLists]
        exact ⟨stdSort_sorted hlt _, stdSort_sorted hlt _, stdSort_sorted hlt _⟩
      · rw [combine_eq]
        simp [noticeSegment, stdSort_nil]

/-- C10, amended, at the connected model with one error and one notification
(a job for `start` = 0 is started) and at the offline model (no job, fetching
reported done). -/
theorem C10_refresh_witness :
    (∃ m1, slotRefreshActivity newestFirst errorThenNotification = some m1
        ∧ m1._doneFetching = false ∧ m1.startedJobs = [{ start := 0, count := 100 }])
      ∧ (∃ m1, slotRefreshActivity newestFirst offlineModel = some m1
        ∧ m1._doneFetching = true ∧ m1.startedJobs = []) := by
  obtain ⟨m1, h1, -, -, -, -, -, -, -, -, hcan⟩ :=
    C10_refresh newestFirst errorThenNotification onlineAccount rfl
  obtain ⟨m2, h2, -, -, -, -, -, -, -, hcannot, -⟩ :=
    C10_refresh newestFirst offlineModel offlineAccount rfl
  exact ⟨⟨m1, h1, (hcan rfl).1, (hcan rfl).2.1⟩,
    ⟨m2, h2, (hcannot rfl).1, (hcannot rfl).2.1⟩⟩

/-! ## Supporting facts -/

/-- For any ordering that orders some entry `a` strictly before some entry `b`,
a model with `b` as its only error and `a` as its only notification gets a final
list that is not sorted. -/
theorem final_list_unsorted_of_lt (lt : Activity → Activity → Bool) (a b : Activity)
    (hab : lt a b = true) (m : ActivityListModel)
    (he : m._notificationErrorsLists = [b]) (hn : m._notificationLists = [a]) :
    ¬ SortedUnder lt (combineActivityLists lt m)._finalList := by
  rw [combine_eq]
  simp only [he, hn, stdSort, List.insertionSort, List.orderedInsert]
  intro hs
  unfold SortedUnder at hs
  have h1 := (List.pairwise_append.mp (List.pairwise_append.mp hs).1).1
  have h2 := (List.pairwise_append.mp h1).2.2 b (by simp) a (by simp)
  unfold notAfter at h2
  rw [hab] at h2
  exact absurd h2 (by decide)

theorem addIgnoredFile_lists (m : ActivityListModel) (a : Activity) :
    (addIgnoredFileToList m a)._notificationErrorsLists = m._notificationErrorsLists
      ∧ (addIgnoredFileToList m a)._notificationLists = m._notificationLists
      ∧ (addIgnoredFileToList m a)._syncFileItemLists = m._syncFileItemLists
      ∧ (addIgnoredFileToList m a)._activityLists = m._activityLists := by
  unfold addIgnoredFileToList
  dsimp only
  split_ifs <;> simp

/-- Under a strict weak ordering every call leaves the four source lists in
sorted order. -/
theorem step_sorted (lt eq : Activity → Activity → Bool) (hlt : StrictWeakOrder lt)
    (w w1 : World) (op : Op) (hs : step lt eq w op = some w1)
    (hinv : SourceListsSorted lt w.model) : SourceListsSorted lt w1.model := by
  cases op with
  | fetchMore =>
    simp only [step, fetchMore_eq] at hs
    cases hast : w.model._accountState with
    | none => simp [hast] at hs
    | some ast =>
      simp only [hast] at hs
      split_ifs at hs <;> simp at hs <;> subst hs
      · exact hinv
      · exact combine_sorted lt hlt _
  | slotRefreshActivity =>
    simp only [step, slotRefreshActivity_eq] at hs
    cases hast : w.model._accountState with
    | none => simp [hast] at hs
    | some ast =>
      simp only [hast] at hs
      split_ifs at hs <;> simp at hs <;> subst hs
      · exact ⟨hinv.1, hinv.2.1, hinv.2.2.1, List.Pairwise.nil⟩
      · exact combine_sorted lt hlt _
  | slotActivitiesReceived activities statusCode =>
    simp only [step] at hs
    split_ifs at hs with h0
    simp at hs
    subst hs
    cases hast : w.model._accountState with
    | none =>
      rw [slotActivitiesReceived_noAccount lt _ hast]
      exact hinv
    | some ast =>
      rw [slotActivitiesReceived_eq lt _ ast hast]
      exact combine_sorted lt hlt _
  | slotRemoveAccount =>
    simp only [step, Option.some.injEq] at hs
    subst hs
    exact ⟨hinv.1, hinv.2.1, hinv.2.2.1, List.Pairwise.nil⟩
  | addErrorToActivityList a =>
    simp only [step, Option.some.injEq] at hs
    subst hs
    exact combine_sorted lt hlt _
  | addIgnoredFileToList a =>
    simp only [step, Option.some.injEq] at hs
    subst hs
    have hf := addIgnoredFile_lists w.model a
    unfold SourceListsSorted
    simp only [hf.1, hf.2.1, hf.2.2.1, hf.2.2.2]
    exact hinv
  | addNotificationToActivityList a =>
    simp only [step, Option.some.injEq] at hs
    subst hs
    exact combine_sorted lt hlt _
  | addSyncFileItemToActivityList a =>
    simp only [step, Option.some.injEq] at hs
    subst hs
    exact combine_sorted lt hlt _
  | clearNotifications =>
    simp only [step, Option.some.injEq] at hs
    subst hs
    exact combine_sorted lt hlt _
  | removeActivityFromActivityList a =>
    simp only [step, Option.some.injEq] at hs
    subst hs
    rcases chosenList_cases eq w.model a with hfound | hnot
    · simp only [remove_found lt eq w.model a hfound]
      exact combine_sorted lt hlt _
    · simp only [remove_not_found lt eq w.model a hnot]
      exact hinv
  | removeActivityFromActivityListRow row =>
    simp only [step, removeActivityFromActivityListRow] at hs
    split at hs
    · simp at hs
    · simp at hs
      subst hs
      exact combine_sorted lt hlt _
  | accountStateChanged now =>
    simp only [step, Option.some.injEq] at hs
    subst hs
    exact hinv

/-- Under a strict weak ordering the source lists are in sorted order in every
state reached from a freshly constructed model. -/
theorem run_sorted (lt eq : Activity → Activity → Bool) (hlt : StrictWeakOrder lt)
    (ops : List Op) :
    ∀ (w w1 : World), run lt eq w ops = some w1 → SourceListsSorted lt w.model →
      SourceListsSorted lt w1.model := by
  induction ops with
  | nil =>
    intro w w1 hr hinv
    simp only [run, Option.some.injEq] at hr
    subst hr
    exact hinv
  | cons op ops ih =>
    intro w w1 hr hinv
    simp only [run] at hr
    cases hs : step lt eq w op with
    | none => simp [hs] at hr
    | some w2 =>
      simp only [hs] at hr
      exact ih w2 w1 hr (step_sorted lt eq hlt w w2 op hs hinv)

theorem reachable_sorted (lt eq : Activity → Activity → Bool) (hlt : StrictWeakOrder lt)
    (accountState : Option AccountState) (ops : List Op) (w : World)
    (hr : run lt eq (World.fresh accountState) ops = some w) :
    SourceListsSorted lt w.model :=
  run_sorted lt eq hlt ops _ w hr
    ⟨List.Pairwise.nil, List.Pairwise.nil, List.Pairwise.nil, List.Pairwise.nil⟩

end OCC
